import Mathlib

/-!
Verification of the per-conversation dispatch pipeline of the
facebook-messenger-agui-client repository.

The development shallowly embeds, directly from the TypeScript source:

* `chunkText` from
  `apps/messenger-webhook/src/services/messenger/webhook-service.ts`
  (text chunking for the Messenger size limit), modelled over `List Char`
  so that index-based operations (`lastIndexOf`, `slice`) are explicit;
* the SSE stream decoder `processEventStream` of `HttpAguiDispatcher`
  (`apps/messenger-webhook/src/services/session/in-memory-store.ts`,
  appended dispatcher section), modelled over already-JSON-parsed blocks:
  JSON parsing itself is an external primitive, so a block is either
  `malformed` (JSON.parse throws), `skip` (no data lines), or a decoded
  event;
* the RunRequest builder `buildRunInput` / `buildUserMessage` /
  `buildPostbackContent` (`packages/gateway-core/src/agui/dispatcher.ts`);
* the retry helper `executeWithRetry` and the chunked `sendTextMessage`
  loop of `MessengerWebhookService`;
* an effect-trace model of `MessengerWebhookService.processSessionInternal`
  together with the handlers built by `createDispatchHandlers`, where the
  collaborators (session store, Send API, AG-UI dispatcher) are oracles
  supplied as parameters.
-/

namespace FbAgui

/-! ## JavaScript string primitives over `List Char`

`String.prototype.trim` removes WhiteSpace / LineTerminator characters from
both ends; we model the ASCII members of that set, which is the alphabet the
repository's texts use.  `lastIndexOf(' ', from)` searches for the exact
space character backwards from index `from` inclusive. -/

def isJsWs (c : Char) : Bool :=
  c = ' ' || c = '\t' || c = '\n' || c = '\r' || c = '\x0b' || c = '\x0c'

def jsTrimStart (l : List Char) : List Char :=
  l.dropWhile isJsWs

def jsTrimEnd (l : List Char) : List Char :=
  (l.reverse.dropWhile isJsWs).reverse

def jsTrim (l : List Char) : List Char :=
  jsTrimEnd (jsTrimStart l)

/-- Largest index `i ≤ fromIdx` such that `l[i]` is a space, if any:
JavaScript `l.lastIndexOf(' ', fromIdx)` (with `-1` rendered as `none`). -/
def jsLastIndexOfSpace (l : List Char) (fromIdx : Nat) : Option Nat :=
  (List.range (fromIdx + 1)).reverse.find? fun i => l.get? i = some ' '

lemma length_dropWhile_le (p : Char → Bool) (l : List Char) :
    (l.dropWhile p).length ≤ l.length :=
  (List.dropWhile_sublist p).length_le

/-! ## chunkText

Embedding of `chunkText(text, maxLength)` from `webhook-service.ts`:

    if (text.length <= maxLength) return [text];
    const chunks = []; let remaining = text;
    while (remaining.length > maxLength) {
      let splitIndex = remaining.lastIndexOf(' ', maxLength);
      if (splitIndex === -1) splitIndex = maxLength;
      const chunk = remaining.slice(0, splitIndex).trim();
      if (chunk.length === 0) break;
      chunks.push(chunk);
      remaining = remaining.slice(splitIndex).trimStart();
    }
    if (remaining.length > 0) chunks.push(remaining);
    return chunks;

`chunkTextLoop` is the while loop together with the final push. -/

lemma chunkText_decrease (maxLength : Nat) (remaining : List Char)
    (hne : jsTrim (remaining.take
        ((jsLastIndexOfSpace remaining maxLength).getD maxLength)) ≠ []) :
    (jsTrimStart (remaining.drop
        ((jsLastIndexOfSpace remaining maxLength).getD maxLength))).length <
      remaining.length := by
  set si := (jsLastIndexOfSpace remaining maxLength).getD maxLength with hsi
  have h1 : remaining.take si ≠ [] := by
    intro hnil
    exact hne (by simp [jsTrim, jsTrimStart, jsTrimEnd, hnil])
  have h2 : si ≠ 0 := by
    intro h0
    rw [h0] at h1
    simp at h1
  have h3 : remaining ≠ [] := by
    intro h0
    rw [h0] at h1
    simp at h1
  have h4 : (jsTrimStart (remaining.drop si)).length ≤ remaining.length - si := by
    have := length_dropWhile_le isJsWs (remaining.drop si)
    simpa [jsTrimStart] using this
  have h5 : 0 < remaining.length := List.length_pos.mpr h3
  omega

def chunkTextLoop (maxLength : Nat) (remaining : List Char) : List (List Char) :=
  if remaining.length ≤ maxLength then
    if 0 < remaining.length then [remaining] else []
  else if jsTrim (remaining.take
      ((jsLastIndexOfSpace remaining maxLength).getD maxLength)) = [] then
    [remaining]
  else
    jsTrim (remaining.take ((jsLastIndexOfSpace remaining maxLength).getD maxLength)) ::
      chunkTextLoop maxLength
        (jsTrimStart (remaining.drop
          ((jsLastIndexOfSpace remaining maxLength).getD maxLength)))
termination_by remaining.length
decreasing_by
  rename_i _hgt hne
  exact chunkText_decrease maxLength remaining hne

def chunkText (text : List Char) (maxLength : Nat) : List (List Char) :=
  if text.length ≤ maxLength then [text] else chunkTextLoop maxLength text

/-- Decomposition of `text` into the returned chunks re-joined with the
whitespace the cut points consumed: `text = w₀ ++ c₁ ++ w₁ ++ … ++ cₙ ++ wₙ`
with every `wᵢ` all-whitespace. -/
inductive JoinsTo : List (List Char) → List Char → Prop
  | nil (w : List Char) (hw : ∀ c ∈ w, isJsWs c = true) : JoinsTo [] w
  | cons (c : List Char) (cs : List (List Char)) (w rest : List Char)
      (hw : ∀ ch ∈ w, isJsWs ch = true) (h : JoinsTo cs rest) :
      JoinsTo (c :: cs) (w ++ c ++ rest)

lemma joinsTo_self (l : List Char) : JoinsTo [l] l := by
  have h := JoinsTo.cons l [] [] [] (by simp) (JoinsTo.nil [] (by simp))
  simpa using h

lemma joinsTo_ws_prepend {cs : List (List Char)} {w rest : List Char}
    (hw : ∀ ch ∈ w, isJsWs ch = true) (h : JoinsTo cs rest) :
    JoinsTo cs (w ++ rest) := by
  induction h with
  | nil w2 hw2 =>
      exact JoinsTo.nil (w ++ w2) (by
        intro c hc
        rcases List.mem_append.mp hc with h1 | h2
        · exact hw c h1
        · exact hw2 c h2)
  | cons c cs2 w2 rest2 hw2 h2 _ih =>
      have hnew := JoinsTo.cons c cs2 (w ++ w2) rest2 (by
        intro ch hch
        rcases List.mem_append.mp hch with h1 | h2'
        · exact hw ch h1
        · exact hw2 ch h2') h2
      simpa [List.append_assoc] using hnew

lemma trimStart_decomp (l : List Char) :
    ∃ w, (∀ c ∈ w, isJsWs c = true) ∧ l = w ++ jsTrimStart l := by
  refine ⟨l.takeWhile isJsWs, ?_, ?_⟩
  · intro c hc
    exact List.mem_takeWhile_imp hc
  · simp [jsTrimStart]

lemma trimEnd_decomp (l : List Char) :
    ∃ w, (∀ c ∈ w, isJsWs c = true) ∧ l = jsTrimEnd l ++ w := by
  refine ⟨(l.reverse.takeWhile isJsWs).reverse, ?_, ?_⟩
  · intro c hc
    exact List.mem_takeWhile_imp (List.mem_reverse.mp hc)
  · conv_lhs =>
      rw [← l.reverse_reverse,
        ← List.takeWhile_append_dropWhile (p := isJsWs) (l := l.reverse)]
    rw [List.reverse_append]
    simp [jsTrimEnd]

lemma trim_decomp (l : List Char) :
    ∃ w1 w2, (∀ c ∈ w1, isJsWs c = true) ∧ (∀ c ∈ w2, isJsWs c = true) ∧
      l = w1 ++ jsTrim l ++ w2 := by
  obtain ⟨w1, hw1, h1⟩ := trimStart_decomp l
  obtain ⟨w2, hw2, h2⟩ := trimEnd_decomp (jsTrimStart l)
  refine ⟨w1, w2, hw1, hw2, ?_⟩
  conv_lhs => rw [h1, h2]
  simp [jsTrim, List.append_assoc]

lemma chunkTextLoop_joins (maxLength : Nat) (remaining : List Char) :
    JoinsTo (chunkTextLoop maxLength remaining) remaining := by
  suffices hsuff : ∀ n (l : List Char), l.length = n →
      JoinsTo (chunkTextLoop maxLength l) l from hsuff _ remaining rfl
  intro n
  induction n using Nat.strong_induction_on with
  | _ n ih =>
    intro l hlen
    rw [chunkTextLoop]
    split
    · split
      · exact joinsTo_self l
      · rename_i hzero
        have hnil : l = [] := by
          have : l.length = 0 := by omega
          exact List.length_eq_zero.mp this
        exact hnil ▸ JoinsTo.nil [] (by simp)
    · split
      · exact joinsTo_self l
      · rename_i hgt hne
        set si := (jsLastIndexOfSpace l maxLength).getD maxLength with hsi
        have hdecrease := chunkText_decrease maxLength l hne
        rw [← hsi] at hdecrease
        have ihl := ih (jsTrimStart (l.drop si)).length (by omega)
          (jsTrimStart (l.drop si)) rfl
        obtain ⟨w1, w2, hw1, hw2, hdec⟩ := trim_decomp (l.take si)
        obtain ⟨w3, hw3, hdec3⟩ := trimStart_decomp (l.drop si)
        have hshape : l =
            w1 ++ jsTrim (l.take si) ++
              (w2 ++ (w3 ++ jsTrimStart (l.drop si))) := by
          conv_lhs => rw [← List.take_append_drop si l]
          conv_lhs => rw [hdec, hdec3]
          simp [List.append_assoc]
        have hjoin := JoinsTo.cons (jsTrim (l.take si))
          (chunkTextLoop maxLength (jsTrimStart (l.drop si)))
          w1 (w2 ++ (w3 ++ jsTrimStart (l.drop si)))
          hw1
          (joinsTo_ws_prepend hw2 (joinsTo_ws_prepend hw3 ihl))
        rw [← hshape] at hjoin
        exact hjoin

lemma length_jsTrim_le (l : List Char) : (jsTrim l).length ≤ l.length := by
  calc (jsTrim l).length
      ≤ (jsTrimStart l).length := by
        have := length_dropWhile_le isJsWs (jsTrimStart l).reverse
        simpa [jsTrim, jsTrimEnd] using this
    _ ≤ l.length := length_dropWhile_le _ _

lemma jsLastIndexOfSpace_le {l : List Char} {fromIdx i : Nat}
    (h : jsLastIndexOfSpace l fromIdx = some i) : i ≤ fromIdx := by
  have hmem := List.mem_of_find?_eq_some h
  have h2 : i ∈ List.range (fromIdx + 1) := List.mem_reverse.mp hmem
  have := List.mem_range.mp h2
  omega

lemma chunkTextLoop_bounded (maxLength : Nat) (remaining : List Char) :
    ∀ c ∈ (chunkTextLoop maxLength remaining).dropLast, c.length ≤ maxLength := by
  suffices hsuff : ∀ n (l : List Char), l.length = n →
      ∀ c ∈ (chunkTextLoop maxLength l).dropLast, c.length ≤ maxLength from
    hsuff _ remaining rfl
  intro n
  induction n using Nat.strong_induction_on with
  | _ n ih =>
    intro l hlen
    rw [chunkTextLoop]
    split
    · split <;> simp
    · split
      · simp
      · rename_i hgt hne
        set si := (jsLastIndexOfSpace l maxLength).getD maxLength with hsi
        have hidx : si ≤ maxLength := by
          rw [hsi]
          cases hfind : jsLastIndexOfSpace l maxLength with
          | none => simp
          | some i => simpa using jsLastIndexOfSpace_le hfind
        have hchunklen : (jsTrim (l.take si)).length ≤ maxLength := by
          calc (jsTrim (l.take si)).length
              ≤ (l.take si).length := length_jsTrim_le _
            _ ≤ si := by simp
            _ ≤ maxLength := hidx
        have hdecrease := chunkText_decrease maxLength l hne
        rw [← hsi] at hdecrease
        have ihl := ih (jsTrimStart (l.drop si)).length (by omega)
          (jsTrimStart (l.drop si)) rfl
        intro c hc
        cases hrest : chunkTextLoop maxLength (jsTrimStart (l.drop si)) with
        | nil =>
            rw [hrest] at hc
            simp at hc
        | cons r rs =>
            rw [hrest, List.dropLast_cons₂] at hc
            rcases List.mem_cons.mp hc with hceq | hcmem
            · exact hceq ▸ hchunklen
            · exact ihl c (hrest ▸ hcmem)

lemma chunkTextLoop_nonempty (maxLength : Nat) (remaining : List Char) :
    ∀ c ∈ chunkTextLoop maxLength remaining, c ≠ [] := by
  suffices hsuff : ∀ n (l : List Char), l.length = n →
      ∀ c ∈ chunkTextLoop maxLength l, c ≠ [] from hsuff _ remaining rfl
  intro n
  induction n using Nat.strong_induction_on with
  | _ n ih =>
    intro l hlen
    rw [chunkTextLoop]
    split
    · rename_i hle
      split
      · rename_i hpos
        intro c hc
        rw [List.mem_singleton] at hc
        subst hc
        exact List.length_pos.mp hpos
      · simp
    · rename_i hgt
      simp only [not_le] at hgt
      split
      · intro c hc
        rw [List.mem_singleton] at hc
        subst hc
        intro hnil
        rw [hnil] at hgt
        simp at hgt
      · rename_i hne
        have hdecrease := chunkText_decrease maxLength l hne
        have ihl := ih (jsTrimStart (l.drop
            ((jsLastIndexOfSpace l maxLength).getD maxLength))).length (by omega)
          (jsTrimStart (l.drop ((jsLastIndexOfSpace l maxLength).getD maxLength))) rfl
        intro c hc
        rcases List.mem_cons.mp hc with hceq | hcmem
        · exact hceq ▸ hne
        · exact ihl c hcmem

end FbAgui

namespace FbAgui

/-! ## Stream decoder

Embedding of `HttpAguiDispatcher.processEventStream` (the SSE decoder in
`in-memory-store.ts`).  The input is the list of blocks (split on blank
lines) after the `data:` extraction and JSON.parse attempt: a block either
parsed into an event, failed to parse (`malformed`), or was skipped because
it had no data lines / an empty payload (`skip`).  Field access such as
`event.message_id ?? event.messageId` and `extractDelta(event.delta ??
event.text ?? '')` is performed by the JSON layer, so the event
constructors carry the already-extracted optional fields; a non-string
delta arrives JSON-stringified.  `randomUUID()` (the fallback message id of
`TEXT_MESSAGE_START`) is modelled as a deterministic fresh-name supply. -/

/-- JavaScript `String.prototype.trim` on a packed string, computed through
the character list so that it reduces in the kernel. -/
def strTrim (s : String) : String :=
  ⟨jsTrim s.data⟩

/-- ASCII lower-casing (`String.prototype.toLowerCase`); the decoder only
compares against the all-ASCII literal "assistant". -/
def toLowerChar (c : Char) : Char :=
  if 65 ≤ c.toNat ∧ c.toNat ≤ 90 then Char.ofNat (c.toNat + 32) else c

def strToLower (s : String) : String :=
  ⟨s.data.map toLowerChar⟩

structure SnapshotMessage where
  role : Option String
  id : Option String
  content : Option String
deriving DecidableEq, Repr

inductive SseEvent where
  | runStarted (runId threadId : Option String)
  | runFinished (runId threadId : Option String)
  | runError (message : Option String)
  | textMessageStart (messageId : Option String) (role : Option String)
  | textMessageContent (messageId : Option String) (role : Option String) (delta : String)
  | textMessageEnd (messageId : Option String)
  | textMessage (messageId : Option String) (role : Option String) (content : Option String)
  | messagesSnapshot (messages : List SnapshotMessage)
  | other
deriving DecidableEq, Repr

inductive SseBlock where
  | malformed
  | skip
  | event (e : SseEvent)
deriving DecidableEq, Repr

/-- Calls made on the `AguiDispatchHandlers` callbacks while decoding. -/
inductive DecodedCall where
  | runStarted (runId threadId : Option String)
  | runFinished (runId threadId : Option String)
  | runError (message : Option String)
  | assistantMessage (messageId : Option String) (content : String)
deriving DecidableEq, Repr

structure DecodeState where
  active : List (String × String)
  dispatched : List String
  parseErrors : Nat
  uuidCount : Nat
deriving DecidableEq, Repr

def initDecodeState : DecodeState :=
  { active := [], dispatched := [], parseErrors := 0, uuidCount := 0 }

/-- Role check `isAssistant`: a string role equal to "assistant" after
lower-casing. -/
def isAssistant (role : Option String) : Bool :=
  match role with
  | some r => strToLower r = "assistant"
  | none => false

def freshUuid (n : Nat) : String :=
  "uuid-" ++ toString n

/-- Insertion-ordered map update mirroring `Map.prototype.set`: overwrite in
place if the key exists, append otherwise. -/
def setAssoc (l : List (String × String)) (k v : String) : List (String × String) :=
  match l with
  | [] => [(k, v)]
  | (k2, v2) :: rest =>
      if k2 = k then (k2, v) :: rest else (k2, v2) :: setAssoc rest k v

def lookupAssoc (l : List (String × String)) (k : String) : Option String :=
  match l with
  | [] => none
  | (k2, v2) :: rest => if k2 = k then some v2 else lookupAssoc rest k

def eraseAssoc (l : List (String × String)) (k : String) : List (String × String) :=
  match l with
  | [] => []
  | (k2, v2) :: rest =>
      if k2 = k then rest else (k2, v2) :: eraseAssoc rest k

def containsKey (l : List (String × String)) (k : String) : Bool :=
  (lookupAssoc l k).isSome

/-- The `emitMessage` closure: trim the content, drop empty/whitespace-only
content, and deduplicate by message id via the dispatched set. -/
def emitMessage (dispatched : List String) (messageId : Option String)
    (content : Option String) : List String × List DecodedCall :=
  match content with
  | none => (dispatched, [])
  | some c =>
      let trimmed := strTrim c
      if trimmed = "" then (dispatched, [])
      else
        match messageId with
        | some m =>
            if m ∈ dispatched then (dispatched, [])
            else (m :: dispatched, [.assistantMessage (some m) trimmed])
        | none => (dispatched, [.assistantMessage none trimmed])

/-- The `RUN_FINISHED` flush loop: emit every still-open accumulator in
insertion order (each emission updates the dispatched set). -/
def flushActive (dispatched : List String) (active : List (String × String)) :
    List String × List DecodedCall :=
  match active with
  | [] => (dispatched, [])
  | (m, c) :: rest =>
      let r1 := emitMessage dispatched (some m) (some c)
      let r2 := flushActive r1.1 rest
      (r2.1, r1.2 ++ r2.2)

/-- One snapshot entry of `MESSAGES_SNAPSHOT`: skip non-assistant messages,
skip already-dispatched ids, otherwise emit. -/
def snapshotStep (dispatched : List String) (msg : SnapshotMessage) :
    List String × List DecodedCall :=
  if ¬ isAssistant msg.role then (dispatched, [])
  else
    match msg.id with
    | some m =>
        if m ∈ dispatched then (dispatched, [])
        else emitMessage dispatched (some m) msg.content
    | none => emitMessage dispatched none msg.content

def snapshotFold (dispatched : List String) (msgs : List SnapshotMessage) :
    List String × List DecodedCall :=
  match msgs with
  | [] => (dispatched, [])
  | msg :: rest =>
      let r1 := snapshotStep dispatched msg
      let r2 := snapshotFold r1.1 rest
      (r2.1, r1.2 ++ r2.2)

/-- The event switch of `processEventStream`. -/
def stepEvent (s : DecodeState) : SseEvent → DecodeState × List DecodedCall
  | .runStarted rid tid =>
      ({ s with active := [], dispatched := [] }, [.runStarted rid tid])
  | .runFinished rid tid =>
      let r := flushActive s.dispatched s.active
      ({ s with active := [], dispatched := [] }, r.2 ++ [.runFinished rid tid])
  | .runError msg => (s, [.runError msg])
  | .textMessageStart mid role =>
      if ¬ isAssistant role then (s, [])
      else
        match mid with
        | some m =>
            if containsKey s.active m then (s, [])
            else ({ s with active := s.active ++ [(m, "")] }, [])
        | none =>
            let m := freshUuid s.uuidCount
            let s2 := { s with uuidCount := s.uuidCount + 1 }
            if containsKey s2.active m then (s2, [])
            else ({ s2 with active := s2.active ++ [(m, "")] }, [])
  | .textMessageContent mid role delta =>
      match mid with
      | none => (s, [])
      | some m =>
          if ¬ isAssistant role ∧ s.active = [] then (s, [])
          else
            let current := (lookupAssoc s.active m).getD ""
            ({ s with active := setAssoc s.active m (current ++ delta) }, [])
  | .textMessageEnd mid =>
      match mid with
      | none => (s, [])
      | some m =>
          let content := lookupAssoc s.active m
          let active2 := eraseAssoc s.active m
          let r := emitMessage s.dispatched (some m) content
          ({ s with active := active2, dispatched := r.1 }, r.2)
  | .textMessage mid role content =>
      if ¬ isAssistant role then (s, [])
      else if mid.any (fun m => decide (m ∈ s.dispatched)) then (s, [])
      else
        let r := emitMessage s.dispatched mid content
        ({ s with dispatched := r.1 }, r.2)
  | .messagesSnapshot msgs =>
      if s.dispatched ≠ [] then (s, [])
      else
        let r := snapshotFold s.dispatched msgs
        ({ s with active := [], dispatched := r.1 }, r.2)
  | .other => (s, [])

/-- The block loop: malformed blocks bump the consecutive-failure counter
and abort once it reaches `maxErrors` (`consecutiveParseErrors >=
this.maxConsecutiveParseErrors` throws); parsed blocks reset the counter to
zero before the event switch.  The third component records whether the
fatal decode error was thrown. -/
def processBlocks (maxErrors : Nat) (s : DecodeState) :
    List SseBlock → List DecodedCall × DecodeState × Bool
  | [] => ([], s, false)
  | .skip :: rest => processBlocks maxErrors s rest
  | .malformed :: rest =>
      if maxErrors ≤ s.parseErrors + 1 then
        ([], { s with parseErrors := s.parseErrors + 1 }, true)
      else processBlocks maxErrors { s with parseErrors := s.parseErrors + 1 } rest
  | .event e :: rest =>
      ((stepEvent { s with parseErrors := 0 } e).2 ++
        (processBlocks maxErrors (stepEvent { s with parseErrors := 0 } e).1 rest).1,
       (processBlocks maxErrors (stepEvent { s with parseErrors := 0 } e).1 rest).2)

/-- `processEventStream`: run the block loop from the initial state and, if
no fatal decode error was thrown, flush the accumulators still open at end
of input.  Returns the handler calls and the thrown-flag. -/
def processEventStream (maxErrors : Nat) (blocks : List SseBlock) :
    List DecodedCall × Bool :=
  if (processBlocks maxErrors initDecodeState blocks).2.2 then
    ((processBlocks maxErrors initDecodeState blocks).1, true)
  else
    ((processBlocks maxErrors initDecodeState blocks).1 ++
      (flushActive (processBlocks maxErrors initDecodeState blocks).2.1.dispatched
        (processBlocks maxErrors initDecodeState blocks).2.1.active).2, false)

def assistantEmissions (calls : List DecodedCall) : List (Option String × String) :=
  calls.filterMap fun c =>
    match c with
    | .assistantMessage mid content => some (mid, content)
    | _ => none

/-- Number of deliveries to `onAssistantMessage` carrying message id `m`. -/
def emitCountFor (m : String) (calls : List DecodedCall) : Nat :=
  calls.countP fun c =>
    match c with
    | .assistantMessage (some m2) _ => decide (m2 = m)
    | _ => false

/-- Blocks that clear the per-run dedup state (`RUN_STARTED` clears it on
entry, `RUN_FINISHED` after its flush). -/
def clearsRun : SseBlock → Bool
  | .event (.runStarted _ _) => true
  | .event (.runFinished _ _) => true
  | _ => false

def dispFlag (m : String) (d : List String) : Nat :=
  if m ∈ d then 1 else 0

lemma dispFlag_le_one (m : String) (d : List String) : dispFlag m d ≤ 1 := by
  unfold dispFlag
  split <;> omega

lemma emitCountFor_append (m : String) (a b : List DecodedCall) :
    emitCountFor m (a ++ b) = emitCountFor m a + emitCountFor m b :=
  List.countP_append _ _ _

@[simp] lemma emitCountFor_nil (m : String) : emitCountFor m [] = 0 := rfl

@[simp] lemma emitCountFor_runStarted (m : String) (rid tid : Option String) :
    emitCountFor m [DecodedCall.runStarted rid tid] = 0 := by
  simp [emitCountFor, List.countP_cons]

@[simp] lemma emitCountFor_runFinished (m : String) (rid tid : Option String) :
    emitCountFor m [DecodedCall.runFinished rid tid] = 0 := by
  simp [emitCountFor, List.countP_cons]

@[simp] lemma emitCountFor_runError (m : String) (msg : Option String) :
    emitCountFor m [DecodedCall.runError msg] = 0 := by
  simp [emitCountFor, List.countP_cons]

@[simp] lemma emitCountFor_emission_none (m : String) (content : String) :
    emitCountFor m [DecodedCall.assistantMessage none content] = 0 := by
  simp [emitCountFor, List.countP_cons]

lemma emitCountFor_emission (m m2 : String) (content : String) :
    emitCountFor m [DecodedCall.assistantMessage (some m2) content] =
      if m2 = m then 1 else 0 := by
  simp only [emitCountFor, List.countP_cons, List.countP_nil]
  by_cases h : m2 = m <;> simp [h]

lemma dispFlag_cons_le (m m2 : String) (d : List String) :
    dispFlag m d ≤ dispFlag m (m2 :: d) := by
  unfold dispFlag
  split
  · rename_i h
    simp [List.mem_cons.mpr (Or.inr h)]
  · omega

lemma emitMessage_dedup (m : String) (d : List String) (mid : Option String)
    (content : Option String) :
    emitCountFor m (emitMessage d mid content).2 + dispFlag m d ≤
      dispFlag m (emitMessage d mid content).1 := by
  cases content with
  | none => simp [emitMessage]
  | some c =>
      cases mid with
      | none =>
          simp only [emitMessage]
          split <;> simp
      | some m2 =>
          simp only [emitMessage]
          split
          · simp
          · split
            · simp
            · rename_i hnotmem
              simp only [emitCountFor_emission]
              by_cases hm : m2 = m
              · simp only [if_pos hm]
                subst hm
                have h0 : dispFlag m2 d = 0 := by simp [dispFlag, hnotmem]
                have h1 : dispFlag m2 (m2 :: d) = 1 := by simp [dispFlag]
                omega
              · have hle := dispFlag_cons_le m m2 d
                simp only [if_neg hm]
                omega

lemma flushActive_dedup (m : String) (active : List (String × String)) :
    ∀ d : List String,
      emitCountFor m (flushActive d active).2 + dispFlag m d ≤
        dispFlag m (flushActive d active).1 := by
  induction active with
  | nil => intro d; simp [flushActive]
  | cons p rest ih =>
      intro d
      obtain ⟨m2, c⟩ := p
      have h1 := emitMessage_dedup m d (some m2) (some c)
      have h2 := ih (emitMessage d (some m2) (some c)).1
      simp only [flushActive, emitCountFor_append]
      omega

lemma snapshotStep_dedup (m : String) (d : List String) (msg : SnapshotMessage) :
    emitCountFor m (snapshotStep d msg).2 + dispFlag m d ≤
      dispFlag m (snapshotStep d msg).1 := by
  obtain ⟨role, id, content⟩ := msg
  cases id with
  | none =>
      simp only [snapshotStep]
      split
      · simp
      · exact emitMessage_dedup m d none content
  | some m2 =>
      simp only [snapshotStep]
      split
      · simp
      · split
        · simp
        · exact emitMessage_dedup m d (some m2) content

lemma snapshotFold_dedup (m : String) (msgs : List SnapshotMessage) :
    ∀ d : List String,
      emitCountFor m (snapshotFold d msgs).2 + dispFlag m d ≤
        dispFlag m (snapshotFold d msgs).1 := by
  induction msgs with
  | nil => intro d; simp [snapshotFold]
  | cons msg rest ih =>
      intro d
      have h1 := snapshotStep_dedup m d msg
      have h2 := ih (snapshotStep d msg).1
      simp only [snapshotFold, emitCountFor_append]
      omega

lemma stepEvent_dedup (m : String) (s : DecodeState) (e : SseEvent)
    (hnc : clearsRun (.event e) = false) :
    emitCountFor m (stepEvent s e).2 + dispFlag m s.dispatched ≤
      dispFlag m ((stepEvent s e).1).dispatched := by
  cases e with
  | runStarted rid tid => simp [clearsRun] at hnc
  | runFinished rid tid => simp [clearsRun] at hnc
  | runError msg => simp [stepEvent]
  | textMessageStart mid role =>
      cases mid with
      | some m2 =>
          simp only [stepEvent]
          split
          · simp
          · split <;> simp
      | none =>
          simp only [stepEvent]
          split
          · simp
          · split <;> simp
  | textMessageContent mid role delta =>
      cases mid with
      | none => simp [stepEvent]
      | some m2 =>
          simp only [stepEvent]
          split <;> simp
  | textMessageEnd mid =>
      cases mid with
      | none => simp [stepEvent]
      | some m2 =>
          simp only [stepEvent]
          exact emitMessage_dedup m s.dispatched (some m2) (lookupAssoc s.active m2)
  | textMessage mid role content =>
      simp only [stepEvent]
      split
      · simp
      · split
        · simp
        · exact emitMessage_dedup m s.dispatched mid content
  | messagesSnapshot msgs =>
      simp only [stepEvent]
      split
      · simp
      · exact snapshotFold_dedup m msgs s.dispatched
  | other => simp [stepEvent]

lemma processBlocks_dedup (m : String) (maxErrors : Nat) (blocks : List SseBlock) :
    ∀ s : DecodeState, (∀ b ∈ blocks, clearsRun b = false) →
      emitCountFor m (processBlocks maxErrors s blocks).1 + dispFlag m s.dispatched ≤
        dispFlag m ((processBlocks maxErrors s blocks).2.1).dispatched := by
  induction blocks with
  | nil => intro s _; simp [processBlocks]
  | cons b rest ih =>
      intro s hnc
      have hb : clearsRun b = false := hnc b (List.mem_cons_self b rest)
      have hrest : ∀ b2 ∈ rest, clearsRun b2 = false := fun b2 h2 =>
        hnc b2 (List.mem_cons_of_mem b h2)
      cases b with
      | skip => simpa [processBlocks] using ih s hrest
      | malformed =>
          simp only [processBlocks]
          split
          · simp
          · exact ih { s with parseErrors := s.parseErrors + 1 } hrest
      | event e =>
          have h1 := stepEvent_dedup m { s with parseErrors := 0 } e hb
          have h2 := ih (stepEvent { s with parseErrors := 0 } e).1 hrest
          simp only [processBlocks, emitCountFor_append]
          simp only [] at h1
          omega

/-- Within a single run segment (no `RUN_STARTED` / `RUN_FINISHED` block
clearing the dedup state), a message id is delivered at most once,
end-of-input flush included. -/
lemma processEventStream_dedup (m : String) (maxErrors : Nat)
    (blocks : List SseBlock) (hnc : ∀ b ∈ blocks, clearsRun b = false) :
    emitCountFor m (processEventStream maxErrors blocks).1 ≤ 1 := by
  have h1 := processBlocks_dedup m maxErrors blocks initDecodeState hnc
  have hinit : dispFlag m initDecodeState.dispatched = 0 := by
    simp [initDecodeState, dispFlag]
  rw [hinit] at h1
  unfold processEventStream
  split
  · have hflag := dispFlag_le_one m
      (processBlocks maxErrors initDecodeState blocks).2.1.dispatched
    dsimp only
    omega
  · have h2 := flushActive_dedup m
      (processBlocks maxErrors initDecodeState blocks).2.1.active
      (processBlocks maxErrors initDecodeState blocks).2.1.dispatched
    have hflag := dispFlag_le_one m
      (flushActive (processBlocks maxErrors initDecodeState blocks).2.1.dispatched
        (processBlocks maxErrors initDecodeState blocks).2.1.active).1
    dsimp only
    rw [emitCountFor_append]
    omega

end FbAgui

namespace FbAgui

/-! ## Computation lemmas for concrete stream shapes -/

/-- Start/content/end framing blocks used by the claims about message
delivery (assistant role, explicit message id). -/
def startBlock (m : String) : SseBlock :=
  .event (.textMessageStart (some m) (some "assistant"))

def contentBlock (m d : String) : SseBlock :=
  .event (.textMessageContent (some m) none d)

def endBlock (m : String) : SseBlock :=
  .event (.textMessageEnd (some m))

def snapshotBlock (m c : String) : SseBlock :=
  .event (.textMessage (some m) (some "assistant") (some c))

@[simp] lemma isAssistant_assistant : isAssistant (some "assistant") = true := by
  decide

lemma stepEvent_parseErrors (s : DecodeState) (e : SseEvent) :
    ((stepEvent s e).1).parseErrors = s.parseErrors := by
  cases e with
  | runStarted rid tid => simp [stepEvent]
  | runFinished rid tid => simp [stepEvent]
  | runError msg => simp [stepEvent]
  | textMessageStart mid role =>
      cases mid with
      | some m2 =>
          simp only [stepEvent]
          split
          · simp
          · split <;> simp
      | none =>
          simp only [stepEvent]
          split
          · simp
          · split <;> simp
  | textMessageContent mid role delta =>
      cases mid with
      | none => simp [stepEvent]
      | some m2 =>
          simp only [stepEvent]
          split <;> simp
  | textMessageEnd mid =>
      cases mid with
      | none => simp [stepEvent]
      | some m2 => simp [stepEvent]
  | textMessage mid role content =>
      simp only [stepEvent]
      split
      · simp
      · split <;> simp
  | messagesSnapshot msgs =>
      simp only [stepEvent]
      split <;> simp
  | other => simp [stepEvent]

/-- Block processing distributes over append as long as the first part does
not abort. -/
lemma processBlocks_append (maxErrors : Nat) (a b : List SseBlock) :
    ∀ s, (processBlocks maxErrors s a).2.2 = false →
      processBlocks maxErrors s (a ++ b) =
        ((processBlocks maxErrors s a).1 ++
          (processBlocks maxErrors (processBlocks maxErrors s a).2.1 b).1,
         (processBlocks maxErrors (processBlocks maxErrors s a).2.1 b).2) := by
  induction a with
  | nil => intro s _; simp [processBlocks]
  | cons blk rest ih =>
      intro s h
      cases blk with
      | skip =>
          simp only [List.cons_append, processBlocks] at h ⊢
          exact ih s h
      | malformed =>
          simp only [List.cons_append, processBlocks] at h ⊢
          split
          · rename_i habort
            rw [if_pos habort] at h
            simp at h
          · rename_i hok
            rw [if_neg hok] at h
            exact ih _ h
      | event e =>
          simp only [List.cons_append, processBlocks] at h ⊢
          simp only [List.append_eq]
          rw [ih _ h]
          simp [List.append_assoc]

lemma processBlocks_start (maxErrors u : Nat) (m : String) (rest : List SseBlock) :
    processBlocks maxErrors
        { active := [], dispatched := [], parseErrors := 0, uuidCount := u }
        (startBlock m :: rest) =
      processBlocks maxErrors
        { active := [(m, "")], dispatched := [], parseErrors := 0, uuidCount := u }
        rest := by
  simp [processBlocks, startBlock, stepEvent, containsKey, lookupAssoc]

lemma processBlocks_contents (maxErrors u : Nat) (m : String) (d : List String)
    (deltas : List String) :
    ∀ acc : String,
      processBlocks maxErrors
          { active := [(m, acc)], dispatched := d, parseErrors := 0, uuidCount := u }
          (deltas.map (contentBlock m)) =
        ([], { active := [(m, deltas.foldl (fun a b => a ++ b) acc)], dispatched := d,
               parseErrors := 0, uuidCount := u }, false) := by
  induction deltas with
  | nil => intro acc; simp [processBlocks]
  | cons dl restd ih =>
      intro acc
      have hstep : stepEvent
          { active := [(m, acc)], dispatched := d, parseErrors := 0, uuidCount := u }
          (SseEvent.textMessageContent (some m) none dl) =
        ({ active := [(m, acc ++ dl)], dispatched := d, parseErrors := 0,
           uuidCount := u }, []) := by
        simp [stepEvent, isAssistant, lookupAssoc, setAssoc]
      simp only [List.map_cons, processBlocks, contentBlock]
      rw [hstep]
      rw [ih (acc ++ dl)]
      simp

lemma processBlocks_end (maxErrors u : Nat) (m X : String) (d : List String) :
    processBlocks maxErrors
        { active := [(m, X)], dispatched := d, parseErrors := 0, uuidCount := u }
        [endBlock m] =
      ((emitMessage d (some m) (some X)).2,
       { active := [], dispatched := (emitMessage d (some m) (some X)).1,
         parseErrors := 0, uuidCount := u }, false) := by
  simp [processBlocks, endBlock, stepEvent, lookupAssoc, eraseAssoc]

lemma emitMessage_fresh (m X : String) (hX : strTrim X ≠ "") :
    emitMessage [] (some m) (some X) =
      ([m], [DecodedCall.assistantMessage (some m) (strTrim X)]) := by
  simp [emitMessage, hX]

/-- Consecutive malformed blocks reaching the threshold abort, no matter
what follows. -/
lemma processBlocks_malformed_abort (N : Nat) :
    ∀ (j : Nat) (s : DecodeState) (rest : List SseBlock), 1 ≤ j →
      N ≤ s.parseErrors + j →
      ∃ s2, processBlocks N s (List.replicate j SseBlock.malformed ++ rest) =
        ([], s2, true) := by
  intro j
  induction j with
  | zero => intro s rest h1 _; omega
  | succ j ih =>
      intro s rest _ hbound
      rw [List.replicate_succ]
      simp only [List.cons_append, processBlocks]
      by_cases habort : N ≤ s.parseErrors + 1
      · exact ⟨_, by rw [if_pos habort]⟩
      · rw [if_neg habort]
        refine ih { s with parseErrors := s.parseErrors + 1 } rest ?_ ?_
        · omega
        · simp
          omega

/-- Fewer consecutive malformed blocks than the threshold only bump the
counter. -/
lemma processBlocks_malformed_short (N : Nat) :
    ∀ (j : Nat) (s : DecodeState), s.parseErrors + j < N →
      processBlocks N s (List.replicate j SseBlock.malformed) =
        ([], { s with parseErrors := s.parseErrors + j }, false) := by
  intro j
  induction j with
  | zero => intro s _; simp [processBlocks]
  | succ j ih =>
      intro s hbound
      rw [List.replicate_succ]
      simp only [processBlocks]
      rw [if_neg (by omega)]
      rw [ih { s with parseErrors := s.parseErrors + 1 } (by simp; omega)]
      have harith : s.parseErrors + 1 + j = s.parseErrors + (j + 1) := by omega
      simp [harith]

end FbAgui

namespace FbAgui

/-! ## Claim theorems: stream decoder (C1, C6, C10) -/

/-- C1 (counterexample): the claim "an assistant message with a given
messageId is delivered to onAssistantMessage at most once per RunEvent
stream" is false as stated: `RUN_FINISHED` clears the dispatched set, so a
snapshot event repeating the same message id after `RUN_FINISHED` is
delivered a second time in the same stream. -/
theorem C1_counterexample :
    ¬ (emitCountFor "m1" (processEventStream 3
        [snapshotBlock "m1" "hi", SseBlock.event (SseEvent.runFinished none none),
         snapshotBlock "m1" "hi"]).1 ≤ 1) := by
  decide

/-- C1 (amended): within a single run segment — a decoded stream containing
no `RUN_STARTED`/`RUN_FINISHED` block (those clear the dedup state) — an
assistant message with a given messageId is delivered to
`onAssistantMessage` at most once; and it is delivered exactly once when it
arrives via start/content/end framing with non-whitespace accumulated
content, or via a single snapshot event with non-whitespace content. -/
theorem C1_assistant_message_delivered_once
    (maxE : Nat) (blocks : List SseBlock) (m c : String) (deltas : List String)
    (hnl : ∀ b ∈ blocks, clearsRun b = false)
    (hacc : strTrim (deltas.foldl (fun a b => a ++ b) "") ≠ "")
    (hc : strTrim c ≠ "") :
    emitCountFor m (processEventStream maxE blocks).1 ≤ 1 ∧
    (processEventStream maxE
        (startBlock m :: (deltas.map (contentBlock m) ++ [endBlock m]))).1 =
      [DecodedCall.assistantMessage (some m)
        (strTrim (deltas.foldl (fun a b => a ++ b) ""))] ∧
    (processEventStream maxE [snapshotBlock m c]).1 =
      [DecodedCall.assistantMessage (some m) (strTrim c)] := by
  refine ⟨processEventStream_dedup m maxE blocks hnl, ?_, ?_⟩
  · have h0 : initDecodeState =
        { active := [], dispatched := [], parseErrors := 0, uuidCount := 0 } := rfl
    have hcont := processBlocks_contents maxE 0 m [] deltas ""
    have happ := processBlocks_append maxE (deltas.map (contentBlock m)) [endBlock m]
      { active := [(m, "")], dispatched := [], parseErrors := 0, uuidCount := 0 }
      (by rw [hcont])
    have hframe : processBlocks maxE initDecodeState
        (startBlock m :: (deltas.map (contentBlock m) ++ [endBlock m])) =
        ([DecodedCall.assistantMessage (some m)
            (strTrim (deltas.foldl (fun a b => a ++ b) ""))],
         { active := [], dispatched := [m], parseErrors := 0, uuidCount := 0 },
         false) := by
      rw [h0, processBlocks_start, happ, hcont,
        processBlocks_end maxE 0 m (deltas.foldl (fun a b => a ++ b) "") [],
        emitMessage_fresh m _ hacc]
      simp
    unfold processEventStream
    rw [hframe]
    simp [flushActive]
  · have hsnap : processBlocks maxE initDecodeState [snapshotBlock m c] =
        ([DecodedCall.assistantMessage (some m) (strTrim c)],
         { active := [], dispatched := [m], parseErrors := 0, uuidCount := 0 },
         false) := by
      simp [processBlocks, snapshotBlock, stepEvent, initDecodeState, emitMessage, hc]
    unfold processEventStream
    rw [hsnap]
    simp [flushActive]

/-- C1 (witness): the amended theorem instantiated at a concrete stream,
message id, deltas and snapshot content. -/
theorem C1_assistant_message_delivered_once_witness :
    (∀ b ∈ [snapshotBlock "m0" "hello"], clearsRun b = false) ∧
    strTrim ((["Hi", " there"] : List String).foldl (fun a b => a ++ b) "") ≠ "" ∧
    strTrim "ok" ≠ "" ∧
    (emitCountFor "m0" (processEventStream 3 [snapshotBlock "m0" "hello"]).1 ≤ 1 ∧
     (processEventStream 3
        (startBlock "m0" ::
          ((["Hi", " there"] : List String).map (contentBlock "m0") ++
            [endBlock "m0"]))).1 =
       [DecodedCall.assistantMessage (some "m0")
         (strTrim ((["Hi", " there"] : List String).foldl (fun a b => a ++ b) ""))] ∧
     (processEventStream 3 [snapshotBlock "m0" "ok"]).1 =
       [DecodedCall.assistantMessage (some "m0") (strTrim "ok")]) :=
  ⟨by decide, by decide, by decide,
    C1_assistant_message_delivered_once 3 [snapshotBlock "m0" "hello"] "m0" "ok"
      ["Hi", " there"] (by decide) (by decide) (by decide)⟩

/-- C6 (counterexample): with the default threshold 3, the decoder already
raises the fatal decode error on the 3rd consecutive unparsable block (the
code throws when the counter reaches `maxConsecutiveParseErrors`, testing
`>=`), not on the (N+1)-th as the claim states. -/
theorem C6_counterexample :
    processEventStream 3 (List.replicate 3 SseBlock.malformed) = ([], true) := by
  decide

/-- C6 (amended): a JSON parse failure increments the consecutive-failure
counter and any successful parse resets it to zero; the decoder raises the
fatal decode error exactly when the counter reaches the threshold N, i.e.
on the N-th consecutive unparsable block (3 with the default), and then
stops processing any further blocks. -/
theorem C6_parse_error_threshold (N : Nat) (hN : 1 ≤ N) (rest : List SseBlock)
    (s : DecodeState) (e : SseEvent) :
    processEventStream N (List.replicate N SseBlock.malformed ++ rest) = ([], true) ∧
    (processEventStream N (List.replicate (N - 1) SseBlock.malformed)).2 = false ∧
    ((processBlocks N s [SseBlock.event e]).2.1).parseErrors = 0 := by
  refine ⟨?_, ?_, ?_⟩
  · obtain ⟨s2, habort⟩ := processBlocks_malformed_abort N N initDecodeState rest hN
      (by simp [initDecodeState])
    unfold processEventStream
    rw [habort]
    simp
  · have hshort := processBlocks_malformed_short N (N - 1) initDecodeState
      (by simp only [initDecodeState]; omega)
    unfold processEventStream
    rw [hshort]
    simp
  · have hnil : processBlocks N (stepEvent { s with parseErrors := 0 } e).1 [] =
        ([], (stepEvent { s with parseErrors := 0 } e).1, false) := rfl
    simp only [processBlocks, hnil]
    simp [stepEvent_parseErrors]

/-- C6 (witness): the amended theorem instantiated at the default threshold
3, an empty continuation, the initial decoder state and an ignored event. -/
theorem C6_parse_error_threshold_witness :
    1 ≤ 3 ∧
    (processEventStream 3 (List.replicate 3 SseBlock.malformed ++ []) = ([], true) ∧
     (processEventStream 3 (List.replicate (3 - 1) SseBlock.malformed)).2 = false ∧
     ((processBlocks 3 initDecodeState [SseBlock.event SseEvent.other]).2.1).parseErrors = 0) :=
  ⟨by decide, C6_parse_error_threshold 3 (by decide) [] initDecodeState SseEvent.other⟩

/-- C10: a stream that ends with accumulators still open (a
`TEXT_MESSAGE_START` with no matching `TEXT_MESSAGE_END` and no
`RUN_FINISHED`) has each still-open accumulator flushed to
`onAssistantMessage` at end of input through `emitMessage`: whitespace-only
accumulated content is not emitted, and an id already dispatched in the
stream (here via an earlier snapshot event) is not emitted again. -/
theorem C10_end_of_input_flush (maxE : Nat) (m c c2 : String) (deltas : List String)
    (hc : strTrim c ≠ "") :
    (∀ blocks, (processBlocks maxE initDecodeState blocks).2.2 = false →
      (processEventStream maxE blocks).1 =
        (processBlocks maxE initDecodeState blocks).1 ++
          (flushActive (processBlocks maxE initDecodeState blocks).2.1.dispatched
            (processBlocks maxE initDecodeState blocks).2.1.active).2) ∧
    (processEventStream maxE (startBlock m :: deltas.map (contentBlock m))).1 =
      (if strTrim (deltas.foldl (fun a b => a ++ b) "") = "" then []
       else [DecodedCall.assistantMessage (some m)
              (strTrim (deltas.foldl (fun a b => a ++ b) ""))]) ∧
    (processEventStream maxE [snapshotBlock m c, startBlock m, contentBlock m c2]).1 =
      [DecodedCall.assistantMessage (some m) (strTrim c)] := by
  refine ⟨?_, ?_, ?_⟩
  · intro blocks hok
    unfold processEventStream
    rw [if_neg (by rw [hok]; simp)]
  · have h0 : initDecodeState =
        { active := [], dispatched := [], parseErrors := 0, uuidCount := 0 } := rfl
    have hcont := processBlocks_contents maxE 0 m [] deltas ""
    unfold processEventStream
    rw [h0, processBlocks_start, hcont]
    by_cases ht : strTrim (deltas.foldl (fun a b => a ++ b) "") = "" <;>
      simp [flushActive, emitMessage, ht]
  · by_cases ht2 : strTrim ("" ++ c2) = "" <;>
      simp [processEventStream, processBlocks, stepEvent, initDecodeState,
        snapshotBlock, startBlock, contentBlock, emitMessage, flushActive,
        containsKey, lookupAssoc, setAssoc, eraseAssoc, hc, ht2]

/-- C10 (witness): the flush theorem instantiated at a concrete message id,
snapshot content, delta and dangling-content stream. -/
theorem C10_end_of_input_flush_witness :
    strTrim "done" ≠ "" ∧
    ((∀ blocks, (processBlocks 3 initDecodeState blocks).2.2 = false →
        (processEventStream 3 blocks).1 =
          (processBlocks 3 initDecodeState blocks).1 ++
            (flushActive (processBlocks 3 initDecodeState blocks).2.1.dispatched
              (processBlocks 3 initDecodeState blocks).2.1.active).2) ∧
     (processEventStream 3 (startBlock "m7" :: (["tail"] : List String).map (contentBlock "m7"))).1 =
       (if strTrim ((["tail"] : List String).foldl (fun a b => a ++ b) "") = "" then []
        else [DecodedCall.assistantMessage (some "m7")
               (strTrim ((["tail"] : List String).foldl (fun a b => a ++ b) ""))]) ∧
     (processEventStream 3 [snapshotBlock "m7" "done", startBlock "m7", contentBlock "m7" "x"]).1 =
       [DecodedCall.assistantMessage (some "m7") (strTrim "done")]) :=
  ⟨by decide, C10_end_of_input_flush 3 "m7" "done" "x" ["tail"] (by decide)⟩

end FbAgui

namespace FbAgui

/-! ## Claim theorems: chunkText (C2) -/

/-- C2 (counterexample): the claim that every chunk returned by
`chunkText(text, N)` has length at most N is false: when the cut position
leaves an all-whitespace prefix, the loop breaks after trimming it to the
empty string and emits the entire remainder as a single oversized chunk —
here `chunkText "    abcdef" 3` returns the whole 10-character input. -/
theorem C2_counterexample :
    ¬ (∀ ch ∈ chunkText [' ', ' ', ' ', ' ', 'a', 'b', 'c', 'd', 'e', 'f'] 3,
        ch.length ≤ 3) := by
  unfold chunkText
  rw [chunkTextLoop]
  decide

/-- C2 (amended): `chunkText(text, N)` returns chunks that re-join with the
whitespace consumed at the cut points to reconstruct the original text; all
chunks except possibly the last have length at most N (the last may exceed
N only on the all-whitespace-prefix break path); and for nonempty text no
chunk is empty (`chunkText "" N` returns the single empty chunk `[""]`). -/
theorem C2_chunkText_spec (text : List Char) (N : Nat) :
    JoinsTo (chunkText text N) text ∧
    (∀ ch ∈ (chunkText text N).dropLast, ch.length ≤ N) ∧
    (text ≠ [] → ∀ ch ∈ chunkText text N, ch ≠ []) := by
  refine ⟨?_, ?_, ?_⟩
  · unfold chunkText
    split
    · exact joinsTo_self text
    · exact chunkTextLoop_joins N text
  · unfold chunkText
    split
    · simp
    · exact chunkTextLoop_bounded N text
  · unfold chunkText
    split
    · intro hne ch hch
      rw [List.mem_singleton] at hch
      subst hch
      exact hne
    · intro _ ch hch
      exact chunkTextLoop_nonempty N text ch hch

/-- C2 (witness): the amended chunking theorem instantiated at a concrete
text and limit, with the inner nonemptiness hypothesis discharged. -/
theorem C2_chunkText_spec_witness :
    JoinsTo (chunkText ['a', 'b', ' ', 'c'] 2) ['a', 'b', ' ', 'c'] ∧
    (∀ ch ∈ (chunkText ['a', 'b', ' ', 'c'] 2).dropLast, ch.length ≤ 2) ∧
    ((['a', 'b', ' ', 'c'] : List Char) ≠ [] →
      ∀ ch ∈ chunkText ['a', 'b', ' ', 'c'] 2, ch ≠ []) :=
  C2_chunkText_spec ['a', 'b', ' ', 'c'] 2

end FbAgui

namespace FbAgui

/-! ## Normalized Messenger events and RunRequest construction

Embedding of the `NormalizedMessengerEvent` data model
(`packages/messaging-sdk/src/types.ts`) and of `buildRunInput` /
`buildUserMessage` / `buildPostbackContent`
(`packages/gateway-core/src/agui/dispatcher.ts`).  `envelope.senderId` and
`envelope.recipientId` are non-optional strings in the TypeScript types (the
normalizer drops events without them).  An event with `type = "message"` but
no `message` payload behaves exactly like an `unknown` event in all the
embedded code paths, so the `message` constructor carries its payload.  A
`postback` event carries the raw `sender`/`recipient` ids used by
`resolveParticipants` and the optional `title`/`payload`; `JSON.stringify`
of an attachment payload is treated as an external primitive, so the
attachment carries the already-stringified payload. -/

structure Attachment where
  type : Option String
  payload : Option String
deriving DecidableEq, Repr

structure Envelope where
  senderId : String
  recipientId : String
  timestamp : Nat
  mid : Option String
  isEcho : Bool
deriving DecidableEq, Repr

inductive MsgKind where
  | text (text : String)
  | quickReply (text : String) (payload : String) (title : Option String)
  | attachments (text : Option String) (items : List Attachment)
deriving DecidableEq, Repr

structure NormalizedMessage where
  envelope : Envelope
  kind : MsgKind
deriving DecidableEq, Repr

inductive NEvent where
  | message (timestamp : Nat) (msg : NormalizedMessage)
  | postback (timestamp : Nat) (rawSenderId rawRecipientId : Option String)
      (title payload : Option String)
  | unknown (timestamp : Nat)
deriving DecidableEq, Repr

def eventTimestamp : NEvent → Nat
  | .message ts _ => ts
  | .postback ts _ _ _ _ => ts
  | .unknown ts => ts

/-- JavaScript truthiness on an optional string: the empty string is falsy. -/
def truthy : Option String → Option String
  | some s => if s = "" then none else some s
  | none => none

/-- `Array.prototype.join` with a newline separator. -/
def joinNl : List String → String
  | [] => ""
  | [p] => p
  | p :: rest => p ++ "\n" ++ joinNl rest

structure UserMsg where
  id : Option String
  content : String
deriving DecidableEq, Repr

/-- Per-attachment detail line: `attachment.type ?? attachment-(i+1)` (nullish
coalescing, so an empty-string type is kept) and the stringified payload or
the literal empty-object text. -/
def attachmentDetail (idx : Nat) (a : Attachment) : String :=
  (match a.type with
   | some t => t
   | none => "attachment-" ++ toString (idx + 1)) ++ ": " ++
  (match a.payload with
   | some p => p
   | none => "\x7b\x7d")

def attachmentDetails (items : List Attachment) : List String :=
  items.enum.map fun p => attachmentDetail p.1 p.2

/-- `buildUserMessage`: echoed messages are dropped; text is verbatim;
quick replies and attachments are rendered into labelled sections. -/
def buildUserMessage (msg : NormalizedMessage) : Option UserMsg :=
  if msg.envelope.isEcho then none
  else
    match msg.kind with
    | .text t => some { id := msg.envelope.mid, content := t }
    | .quickReply t payload title =>
        some { id := msg.envelope.mid,
               content := joinNl
                 ((if t = "" then [] else [t]) ++
                  ["Quick reply payload: " ++ payload] ++
                  (match truthy title with
                   | some ttl => ["Quick reply title: " ++ ttl]
                   | none => [])) }
    | .attachments t items =>
        some { id := msg.envelope.mid,
               content := joinNl
                 ((match truthy t with
                   | some tx => [tx]
                   | none => []) ++
                  ["Attachments:"] ++ attachmentDetails items) }

def buildPostbackContent (title payload : Option String) : String :=
  if joinNl ((match truthy title with
      | some t => ["Postback title: " ++ t]
      | none => []) ++
     (match truthy payload with
      | some p => ["Postback payload: " ++ p]
      | none => [])) = "" then "Postback received"
  else joinNl ((match truthy title with
      | some t => ["Postback title: " ++ t]
      | none => []) ++
     (match truthy payload with
      | some p => ["Postback payload: " ++ p]
      | none => []))

/-- The message-collection loop of `buildRunInput`, in arrival order. -/
def buildRunMessages : List NEvent → List UserMsg
  | [] => []
  | .message _ msg :: rest =>
      (match buildUserMessage msg with
       | some u => [u]
       | none => []) ++ buildRunMessages rest
  | .postback _ _ _ title payload :: rest =>
      { id := none, content := buildPostbackContent title payload } ::
        buildRunMessages rest
  | .unknown _ :: rest => buildRunMessages rest

def lastTimestamp (events : List NEvent) : Nat :=
  events.foldl (fun acc e => max acc (eventTimestamp e)) 0

/-- RunAgentInput as far as the claims observe it; `runId` is a fresh UUID
in the source and is not modelled. -/
structure RunInput where
  threadId : String
  messages : List UserMsg
  lastEventTimestamp : Nat
deriving DecidableEq, Repr

/-- `buildRunInput`: no request is built when no user message was produced;
`state.messenger.lastEventTimestamp` is the max input timestamp with a
`Date.now()` fallback when it is zero (`lastTimestamp || Date.now()`). -/
def buildRunInput (events : List NEvent) (sessionId : String) (now : Nat) :
    Option RunInput :=
  if buildRunMessages events = [] then none
  else some { threadId := sessionId,
              messages := buildRunMessages events,
              lastEventTimestamp :=
                if lastTimestamp events = 0 then now else lastTimestamp events }

end FbAgui

namespace FbAgui

/-! ## Service model: processSessionInternal as an effect trace

`MessengerWebhookService.processSessionInternal` and the handlers from
`createDispatchHandlers` are modelled as pure functions from the
collaborators' outcomes to the ordered list of observable effects:

* the session store is an oracle (`Env.readResult`, `Env.writeOk`);
  `persistSession` records the write attempt and swallows its outcome;
* `sendTypingAction` catches every Send API error internally, so it is an
  atomic recorded attempt whose boolean outcome matters only for
  `typing_on` (`Env.typingOnOk`); the `mark_seen` result is ignored by the
  caller and the `typing_off` result is never read;
* `sendTextMessage` is recorded as a single outbound text action here (its
  internal chunk/retry loop is modelled separately below);
* the AG-UI dispatcher is a behavior: the ordered handler callbacks it
  invokes, and whether it finally throws (with the thrown cause);
* the keep-alive interval is a cancellable handle (started / cancelled);
  its periodic re-sends are time-driven and outside the model;
* `sessions.delete` inside the `/reset` command is assumed not to throw. -/

inductive SendKind where
  | assistant
  | command
  | error
deriving DecidableEq, Repr

inductive SenderAction where
  | typing_on
  | typing_off
  | mark_seen
deriving DecidableEq, Repr

structure SessionData where
  userId : Option String
  pageId : Option String
  lastEventTimestamp : Nat
deriving DecidableEq, Repr

inductive Action where
  | sessionRead
  | sessionWrite (data : SessionData) (ok : Bool)
  | sessionDelete (key : String)
  | senderAction (recipient : String) (action : SenderAction)
  | textSend (recipient : String) (text : String) (kind : SendKind)
  | dispatchCall
  | dispatchFailureInc
  | commandInc (name : String)
  | keepAliveStart
  | keepAliveCancel
deriving DecidableEq, Repr

structure Participants where
  userId : Option String
  pageId : Option String
deriving DecidableEq, Repr

/-- `resolveParticipants`: the first message event (or postback event with a
raw sender id) determines the participants; otherwise fall back to the
existing record. -/
def resolveParticipants : List NEvent → Option SessionData → Participants
  | [], existing =>
      { userId := existing.bind (fun d => d.userId),
        pageId := existing.bind (fun d => d.pageId) }
  | .message _ msg :: _, _ =>
      { userId := some msg.envelope.senderId,
        pageId := some msg.envelope.recipientId }
  | .postback _ rawSender rawRecipient _ _ :: rest, existing =>
      match rawSender with
      | some sid =>
          { userId := some sid,
            pageId := rawRecipient.orElse fun _ => existing.bind (fun d => d.pageId) }
      | none => resolveParticipants rest existing
  | .unknown _ :: rest, existing => resolveParticipants rest existing

/-- `persistSession`: spread of the existing record with participants
winning, and the last event timestamp (`Date.now()` fallback). -/
def mergedSession (existing : Option SessionData) (participants : Participants)
    (events : List NEvent) (now : Nat) : SessionData :=
  { userId := participants.userId.orElse fun _ => existing.bind (fun d => d.userId),
    pageId := participants.pageId.orElse fun _ => existing.bind (fun d => d.pageId),
    lastEventTimestamp :=
      match events.getLast? with
      | some e => eventTimestamp e
      | none => now }

def SLASH_HELP_MESSAGE : String :=
  "Available commands:\n/help  – show this message\n/reset – clear the current session and start fresh"

def ERROR_TEXT : String :=
  "Sorry, something went wrong while processing your request. Please try again."

def startsWithSlash (t : String) : Bool :=
  match t.data with
  | c :: _ => c = '/'
  | [] => false

/-- First whitespace-delimited token: `text.split(/\s+/, 1)[0]`. -/
def firstToken (t : String) : String :=
  ⟨t.data.takeWhile fun c => ¬ isJsWs c⟩

/-- `sendTextMessage` at the service level: skipped without a recipient or
with whitespace-only text, otherwise one recorded outbound text. -/
def sendTextServiceActions (recipientId : Option String) (text : String)
    (kind : SendKind) : List Action :=
  match recipientId with
  | none => []
  | some u => if strTrim text = "" then [] else [.textSend u text kind]

/-- `tryHandleSlashCommand`: returns whether the message was handled and the
effects it produced. -/
def tryHandleSlashCommand (sessionId : String) (userId : Option String)
    (text : String) : Bool × List Action :=
  if strTrim text = "" then (false, [])
  else if ¬ startsWithSlash (strTrim text) then (false, [])
  else if strToLower (firstToken (strTrim text)) = "/reset" then
    (true, [.sessionDelete sessionId, .commandInc "reset"] ++
      sendTextServiceActions userId "Conversation reset. You can start again." .command)
  else if strToLower (firstToken (strTrim text)) = "/help" then
    (true, [.commandInc "help"] ++
      sendTextServiceActions userId SLASH_HELP_MESSAGE .command)
  else
    (true, [.commandInc "unknown"] ++
      sendTextServiceActions userId
        ("Unknown command: " ++ firstToken (strTrim text) ++ "\n\n" ++ SLASH_HELP_MESSAGE)
        .command)

/-- `filterSlashCommands`: dispatchable events, whether any command was
handled, and the command effects in event order. -/
def filterSlashCommands (sessionId : String) (userId : Option String) :
    List NEvent → List NEvent × Bool × List Action
  | [] => ([], false, [])
  | .message ts msg :: rest =>
      match msg.kind with
      | .text t =>
          if (tryHandleSlashCommand sessionId userId t).1 then
            ((filterSlashCommands sessionId userId rest).1,
             true,
             (tryHandleSlashCommand sessionId userId t).2 ++
               (filterSlashCommands sessionId userId rest).2.2)
          else
            (.message ts msg :: (filterSlashCommands sessionId userId rest).1,
             (filterSlashCommands sessionId userId rest).2.1,
             (filterSlashCommands sessionId userId rest).2.2)
      | _k =>
          (.message ts msg :: (filterSlashCommands sessionId userId rest).1,
           (filterSlashCommands sessionId userId rest).2.1,
           (filterSlashCommands sessionId userId rest).2.2)
  | e :: rest =>
      (e :: (filterSlashCommands sessionId userId rest).1,
       (filterSlashCommands sessionId userId rest).2.1,
       (filterSlashCommands sessionId userId rest).2.2)

structure TypingState where
  sent : Bool
  keepAlive : Bool
deriving DecidableEq, Repr

inductive HandlerCall where
  | runStarted
  | runFinished
  | runError
  | assistantMessage (content : String)
deriving DecidableEq, Repr

/-- A dispatcher behavior: the ordered handler callbacks it performs, and
whether `dispatch` finally throws (carrying the cause). -/
structure DispatcherBehavior where
  calls : List HandlerCall
  failure : Option String
deriving DecidableEq, Repr

def cancelKeepAlive (ts : TypingState) : TypingState × List Action :=
  if ts.keepAlive then ({ ts with keepAlive := false }, [.keepAliveCancel])
  else (ts, [])

/-- The `typingState.sent && participants.userId` guard of the
`onRunFinished`/`onRunError` handlers. -/
def typingOffIfSent (userId : Option String) (ts : TypingState) :
    TypingState × List Action :=
  match userId with
  | some u =>
      if ts.sent then ({ ts with sent := false }, [.senderAction u .typing_off])
      else (ts, [])
  | none => (ts, [])

/-- The `finally` block's typing-off: guarded only by `sent` (a missing
recipient makes `sendTypingAction` a silent no-op), and `sent` is always
cleared. -/
def finallyTypingOff (userId : Option String) (ts : TypingState) :
    TypingState × List Action :=
  if ts.sent then
    ({ ts with sent := false },
     match userId with
     | some u => [.senderAction u .typing_off]
     | none => [])
  else (ts, [])

/-- One handler callback from `createDispatchHandlers`. -/
def runHandler (userId : Option String) (ts : TypingState) :
    HandlerCall → TypingState × List Action
  | .runStarted => (ts, [])
  | .runFinished =>
      ((typingOffIfSent userId (cancelKeepAlive ts).1).1,
       (cancelKeepAlive ts).2 ++ (typingOffIfSent userId (cancelKeepAlive ts).1).2)
  | .runError =>
      ((typingOffIfSent userId (cancelKeepAlive ts).1).1,
       (match userId with
        | some u => sendTextServiceActions (some u) ERROR_TEXT .error
        | none => []) ++
         (cancelKeepAlive ts).2 ++ (typingOffIfSent userId (cancelKeepAlive ts).1).2)
  | .assistantMessage content => (ts, sendTextServiceActions userId content .assistant)

def runHandlers (userId : Option String) :
    TypingState → List HandlerCall → TypingState × List Action
  | ts, [] => (ts, [])
  | ts, c :: rest =>
      ((runHandlers userId (runHandler userId ts c).1 rest).1,
       (runHandler userId ts c).2 ++
         (runHandlers userId (runHandler userId ts c).1 rest).2)

/-- The `finally` block: cancel the keep-alive interval, then typing-off. -/
def finallyActions (userId : Option String) (ts : TypingState) :
    TypingState × List Action :=
  ((finallyTypingOff userId (cancelKeepAlive ts).1).1,
   (cancelKeepAlive ts).2 ++ (finallyTypingOff userId (cancelKeepAlive ts).1).2)

inductive ProcError where
  | sessionReadFailed
  | dispatchError (cause : String)
deriving DecidableEq, Repr

/-- The `try { dispatch } catch { handleDispatchFailure; throw DispatchError }
finally { … }` section of `processSessionInternal`. -/
def dispatchPhase (userId : Option String) (ts : TypingState)
    (b : DispatcherBehavior) : TypingState × List Action × Except ProcError Unit :=
  match b.failure with
  | none =>
      ((finallyActions userId (runHandlers userId ts b.calls).1).1,
       Action.dispatchCall :: (runHandlers userId ts b.calls).2 ++
         (finallyActions userId (runHandlers userId ts b.calls).1).2,
       .ok ())
  | some cause =>
      ((finallyActions userId (runHandlers userId ts b.calls).1).1,
       Action.dispatchCall :: (runHandlers userId ts b.calls).2 ++
         ([Action.dispatchFailureInc] ++
           sendTextServiceActions userId ERROR_TEXT .error) ++
         (finallyActions userId (runHandlers userId ts b.calls).1).2,
       .error (.dispatchError cause))

instance {e a : Type} [DecidableEq e] [DecidableEq a] : DecidableEq (Except e a) :=
  fun x y =>
    match x, y with
    | .ok v, .ok w =>
        if h : v = w then .isTrue (congrArg Except.ok h)
        else .isFalse fun hc => h (Except.ok.inj hc)
    | .ok _, .error _ => .isFalse fun hc => Except.noConfusion hc
    | .error _, .ok _ => .isFalse fun hc => Except.noConfusion hc
    | .error v, .error w =>
        if h : v = w then .isTrue (congrArg Except.error h)
        else .isFalse fun hc => h (Except.error.inj hc)

/-- Collaborator outcomes for one `processSessionInternal` call. -/
structure Env where
  readResult : Except Unit (Option SessionData)
  writeOk : Bool
  typingOnOk : Bool
  now : Nat
deriving DecidableEq, Repr

/-- The session read, the best-effort persist and the slash-command pass. -/
def preActions (sessionId : String) (events : List NEvent)
    (existing : Option SessionData) (env : Env) : List Action :=
  [.sessionRead,
   .sessionWrite (mergedSession existing (resolveParticipants events existing)
     events env.now) env.writeOk] ++
    (filterSlashCommands sessionId (resolveParticipants events existing).userId
      events).2.2

/-- Presence actions and the dispatch section once a user id is known and
dispatchable events remain. -/
def dispatchSection (uid : String) (env : Env) (b : DispatcherBehavior) :
    List Action × Except ProcError Unit :=
  ([.senderAction uid .mark_seen, .senderAction uid .typing_on] ++
     (if env.typingOnOk then [.keepAliveStart] else []) ++
     (dispatchPhase (some uid)
       { sent := env.typingOnOk, keepAlive := env.typingOnOk } b).2.1,
   (dispatchPhase (some uid)
     { sent := env.typingOnOk, keepAlive := env.typingOnOk } b).2.2)

/-- `processSessionInternal`: note that the initial `sessions.read` is NOT
wrapped in try/catch in the source, so a read failure aborts the call; the
write inside `persistSession` is wrapped and its failure is swallowed. -/
def processSessionInternal (sessionId : String) (events : List NEvent)
    (env : Env) (b : DispatcherBehavior) : List Action × Except ProcError Unit :=
  match env.readResult with
  | .error _ => ([.sessionRead], .error .sessionReadFailed)
  | .ok existing =>
      if (filterSlashCommands sessionId (resolveParticipants events existing).userId
          events).1 = [] then
        (preActions sessionId events existing env, .ok ())
      else
        match (resolveParticipants events existing).userId with
        | none => (preActions sessionId events existing env, .ok ())
        | some uid =>
            (preActions sessionId events existing env ++ (dispatchSection uid env b).1,
             (dispatchSection uid env b).2)

def toHandlerCall : DecodedCall → HandlerCall
  | .runStarted _ _ => .runStarted
  | .runFinished _ _ => .runFinished
  | .runError _ => .runError
  | .assistantMessage _ content => .assistantMessage content

/-- The behavior of `HttpAguiDispatcher.dispatch` on a successfully fetched
stream: with no run input it returns immediately without calling anything;
otherwise it replays the decoded handler calls, and a fatal decode error
additionally surfaces through `onRunError` and is re-thrown. -/
def httpDispatchBehavior (events : List NEvent) (sessionId : String)
    (now maxErrors : Nat) (stream : List SseBlock) : DispatcherBehavior :=
  match buildRunInput events sessionId now with
  | none => { calls := [], failure := none }
  | some _ =>
      { calls := (processEventStream maxErrors stream).1.map toHandlerCall ++
          (if (processEventStream maxErrors stream).2 then [.runError] else []),
        failure := if (processEventStream maxErrors stream).2 then
            some "Exceeded consecutive AG-UI SSE parse errors"
          else none }

end FbAgui

namespace FbAgui

/-! ## Counting and shape lemmas for the service trace -/

def countAct (x : Action) (acts : List Action) : Nat :=
  acts.countP fun a => decide (a = x)

def bSent (ts : TypingState) : Nat := if ts.sent then 1 else 0

def bKa (ts : TypingState) : Nat := if ts.keepAlive then 1 else 0

@[simp] lemma countAct_nil (x : Action) : countAct x [] = 0 := rfl

lemma countAct_append (x : Action) (a b : List Action) :
    countAct x (a ++ b) = countAct x a + countAct x b :=
  List.countP_append _ _ _

lemma countAct_cons (x a : Action) (rest : List Action) :
    countAct x (a :: rest) = (if a = x then 1 else 0) + countAct x rest := by
  simp only [countAct, List.countP_cons]
  by_cases h : a = x
  · simp [h]
    omega
  · simp [h]

/-- Actions produced by the slash-command interceptor: a session delete, a
command counter bump, or an outbound command text. -/
def isCmdAction : Action → Bool
  | .sessionDelete _ => true
  | .commandInc _ => true
  | .textSend _ _ _ => true
  | _ => false

lemma sendTextServiceActions_shape (recipientId : Option String) (text : String)
    (kind : SendKind) :
    ∀ a ∈ sendTextServiceActions recipientId text kind, isCmdAction a = true := by
  cases recipientId with
  | none => simp [sendTextServiceActions]
  | some u =>
      simp only [sendTextServiceActions]
      split <;> simp [isCmdAction]

lemma tryHandleSlashCommand_shape (sessionId : String) (userId : Option String)
    (text : String) :
    ∀ a ∈ (tryHandleSlashCommand sessionId userId text).2, isCmdAction a = true := by
  unfold tryHandleSlashCommand
  split
  · simp
  · split
    · simp
    · split
      · intro a ha
        rcases List.mem_append.mp ha with h1 | h2
        · rcases List.mem_cons.mp h1 with h3 | h3
          · subst h3; rfl
          · rcases List.mem_singleton.mp h3 with rfl; rfl
        · exact sendTextServiceActions_shape _ _ _ a h2
      · split
        · intro a ha
          rcases List.mem_append.mp ha with h1 | h2
          · rcases List.mem_singleton.mp h1 with rfl; rfl
          · exact sendTextServiceActions_shape _ _ _ a h2
        · intro a ha
          rcases List.mem_append.mp ha with h1 | h2
          · rcases List.mem_singleton.mp h1 with rfl; rfl
          · exact sendTextServiceActions_shape _ _ _ a h2

lemma filterSlashCommands_shape (sessionId : String) (userId : Option String) :
    ∀ events : List NEvent,
      ∀ a ∈ (filterSlashCommands sessionId userId events).2.2, isCmdAction a = true := by
  intro events
  induction events with
  | nil => simp [filterSlashCommands]
  | cons e rest ih =>
      cases e with
      | message ts msg =>
          cases hk : msg.kind with
          | text t =>
              simp only [filterSlashCommands, hk]
              split
              · intro a ha
                rcases List.mem_append.mp ha with h1 | h2
                · exact tryHandleSlashCommand_shape _ _ _ a h1
                · exact ih a h2
              · exact ih
          | quickReply t p ttl => simpa [filterSlashCommands, hk] using ih
          | attachments t items => simpa [filterSlashCommands, hk] using ih
      | postback ts rs rr ti pa => simpa [filterSlashCommands] using ih
      | unknown ts => simpa [filterSlashCommands] using ih

lemma countAct_eq_zero_of_shape {x : Action} (hx : isCmdAction x = false)
    {acts : List Action} (h : ∀ a ∈ acts, isCmdAction a = true) :
    countAct x acts = 0 := by
  rw [countAct, List.countP_eq_zero]
  intro a ha hax
  rw [decide_eq_true_eq] at hax
  have hcontra := h a ha
  rw [hax, hx] at hcontra
  exact Bool.noConfusion hcontra

lemma preActions_counts (sessionId : String) (events : List NEvent)
    (existing : Option SessionData) (env : Env) {x : Action}
    (hx : isCmdAction x = false)
    (hxr : x ≠ Action.sessionRead)
    (hxw : ∀ d ok, x ≠ Action.sessionWrite d ok) :
    countAct x (preActions sessionId events existing env) = 0 := by
  unfold preActions
  rw [countAct_append]
  have h1 : countAct x [Action.sessionRead,
      Action.sessionWrite (mergedSession existing
        (resolveParticipants events existing) events env.now) env.writeOk] = 0 := by
    rw [countAct_cons, countAct_cons, countAct_nil]
    rw [if_neg (fun h => hxr h.symm), if_neg (fun h => hxw _ _ h.symm)]
  have h2 := countAct_eq_zero_of_shape hx
    (filterSlashCommands_shape sessionId
      (resolveParticipants events existing).userId events)
  omega

/-! ### Typing-state invariants of the dispatch handlers -/

lemma strTrim_error_text : strTrim ERROR_TEXT ≠ "" := by decide

lemma runHandler_counts (uid : String) (ts : TypingState) (c : HandlerCall) :
    countAct (.senderAction uid .typing_off) (runHandler (some uid) ts c).2 +
      bSent (runHandler (some uid) ts c).1 = bSent ts ∧
    countAct .keepAliveCancel (runHandler (some uid) ts c).2 +
      bKa (runHandler (some uid) ts c).1 = bKa ts ∧
    countAct .keepAliveStart (runHandler (some uid) ts c).2 = 0 ∧
    countAct .dispatchFailureInc (runHandler (some uid) ts c).2 = 0 := by
  obtain ⟨sent, ka⟩ := ts
  cases c with
  | runStarted => simp [runHandler, bSent, bKa]
  | runFinished =>
      cases sent <;> cases ka <;>
        simp [runHandler, cancelKeepAlive, typingOffIfSent, bSent, bKa,
          countAct_cons, countAct_append]
  | runError =>
      cases sent <;> cases ka <;>
        simp [runHandler, cancelKeepAlive, typingOffIfSent, bSent, bKa,
          sendTextServiceActions, strTrim_error_text, countAct_cons, countAct_append]
  | assistantMessage content =>
      simp only [runHandler, sendTextServiceActions]
      refine ⟨?_, ?_, ?_, ?_⟩ <;> split <;> simp [countAct_cons, bSent, bKa]

lemma runHandlers_counts (uid : String) (calls : List HandlerCall) :
    ∀ ts : TypingState,
      countAct (.senderAction uid .typing_off) (runHandlers (some uid) ts calls).2 +
        bSent (runHandlers (some uid) ts calls).1 = bSent ts ∧
      countAct .keepAliveCancel (runHandlers (some uid) ts calls).2 +
        bKa (runHandlers (some uid) ts calls).1 = bKa ts ∧
      countAct .keepAliveStart (runHandlers (some uid) ts calls).2 = 0 ∧
      countAct .dispatchFailureInc (runHandlers (some uid) ts calls).2 = 0 := by
  induction calls with
  | nil => intro ts; simp [runHandlers]
  | cons c rest ih =>
      intro ts
      obtain ⟨h1, h2, h3, h4⟩ := runHandler_counts uid ts c
      obtain ⟨h5, h6, h7, h8⟩ := ih (runHandler (some uid) ts c).1
      simp only [runHandlers, countAct_append]
      omega

lemma finallyActions_counts (uid : String) (ts : TypingState) :
    countAct (.senderAction uid .typing_off) (finallyActions (some uid) ts).2 = bSent ts ∧
    countAct .keepAliveCancel (finallyActions (some uid) ts).2 = bKa ts ∧
    countAct .keepAliveStart (finallyActions (some uid) ts).2 = 0 ∧
    countAct .dispatchFailureInc (finallyActions (some uid) ts).2 = 0 ∧
    bSent (finallyActions (some uid) ts).1 = 0 ∧
    bKa (finallyActions (some uid) ts).1 = 0 := by
  obtain ⟨sent, ka⟩ := ts
  cases sent <;> cases ka <;>
    simp [finallyActions, cancelKeepAlive, finallyTypingOff, bSent, bKa,
      countAct_cons, countAct_append]

lemma dispatchPhase_counts (uid : String) (ts : TypingState) (b : DispatcherBehavior) :
    countAct (.senderAction uid .typing_off) (dispatchPhase (some uid) ts b).2.1 = bSent ts ∧
    countAct .keepAliveCancel (dispatchPhase (some uid) ts b).2.1 = bKa ts ∧
    countAct .keepAliveStart (dispatchPhase (some uid) ts b).2.1 = 0 ∧
    countAct .dispatchFailureInc (dispatchPhase (some uid) ts b).2.1 =
      (match b.failure with
       | some _ => 1
       | none => 0) := by
  obtain ⟨hh1, hh2, hh3, hh4⟩ := runHandlers_counts uid b.calls ts
  obtain ⟨hf1, hf2, hf3, hf4, hf5, hf6⟩ :=
    finallyActions_counts uid (runHandlers (some uid) ts b.calls).1
  cases hb : b.failure with
  | none =>
      simp only [dispatchPhase, hb, countAct_cons, countAct_append]
      refine ⟨?_, ?_, ?_, ?_⟩ <;> simp <;> omega
  | some cause =>
      simp only [dispatchPhase, hb, countAct_cons, countAct_append, countAct_nil]
      have hsend0 : ∀ x : Action, isCmdAction x = false →
          countAct x (sendTextServiceActions (some uid) ERROR_TEXT .error) = 0 :=
        fun x hx => countAct_eq_zero_of_shape hx (sendTextServiceActions_shape _ _ _)
      have ho := hsend0 (.senderAction uid .typing_off) (by rfl)
      have hc := hsend0 .keepAliveCancel (by rfl)
      have hs := hsend0 .keepAliveStart (by rfl)
      have hd := hsend0 .dispatchFailureInc (by rfl)
      refine ⟨?_, ?_, ?_, ?_⟩ <;> simp <;> omega

lemma dispatchPhase_failure (uid : String) (ts : TypingState)
    (b : DispatcherBehavior) (cause : String) (hb : b.failure = some cause) :
    (dispatchPhase (some uid) ts b).2.2 = .error (.dispatchError cause) ∧
    Action.textSend uid ERROR_TEXT .error ∈ (dispatchPhase (some uid) ts b).2.1 := by
  constructor
  · simp [dispatchPhase, hb]
  · simp only [dispatchPhase, hb]
    have hmem : Action.textSend uid ERROR_TEXT .error ∈
        sendTextServiceActions (some uid) ERROR_TEXT .error := by
      simp only [sendTextServiceActions]
      rw [if_neg (by decide)]
      simp
    refine List.mem_cons_of_mem _ ?_
    refine List.mem_append_left _ ?_
    refine List.mem_append_right _ ?_
    exact List.mem_append_right _ hmem

lemma dispatchPhase_ok (uid : String) (ts : TypingState)
    (b : DispatcherBehavior) (hb : b.failure = none) :
    (dispatchPhase (some uid) ts b).2.2 = .ok () := by
  simp [dispatchPhase, hb]

end FbAgui

namespace FbAgui

/-! ## Claim theorems: session orchestration (C3, C4, C5, C8) -/

/-- Once the read succeeded, dispatchable events remain and a user id is
known, `processSessionInternal` is the pre-section followed by the
presence/dispatch section. -/
lemma processSessionInternal_dispatch (sessionId uid : String)
    (events : List NEvent) (ex : Option SessionData) (env : Env)
    (b : DispatcherBehavior)
    (hr : env.readResult = .ok ex)
    (hu : (resolveParticipants events ex).userId = some uid)
    (hd : (filterSlashCommands sessionId (resolveParticipants events ex).userId
      events).1 ≠ []) :
    processSessionInternal sessionId events env b =
      (preActions sessionId events ex env ++ (dispatchSection uid env b).1,
       (dispatchSection uid env b).2) := by
  unfold processSessionInternal
  split
  · rename_i u herr
    rw [herr] at hr
    exact absurd hr (by simp)
  · rename_i existing heq
    rw [heq] at hr
    injection hr with hex
    subst hex
    rw [if_neg hd]
    split
    · rename_i hnone
      rw [hnone] at hu
      exact absurd hu (by simp)
    · rename_i uid2 hsome
      rw [hsome] at hu
      injection hu with huid
      subst huid
      rfl

/-- C4: whenever the typing-on indicator was successfully sent (and hence
the keep-alive interval started), every exit of the dispatch phase — normal
completion, run-finished handler, run-error handler, or a dispatcher
exception — sends exactly one typing-off action and cancels the keep-alive
interval exactly once before `processSessionInternal` returns; the second
potential trigger is a no-op because the `sent` flag was cleared. -/
theorem C4_typing_off_on_every_exit (sessionId uid : String)
    (events : List NEvent) (ex : Option SessionData) (env : Env)
    (b : DispatcherBehavior)
    (hr : env.readResult = .ok ex)
    (hu : (resolveParticipants events ex).userId = some uid)
    (hd : (filterSlashCommands sessionId (resolveParticipants events ex).userId
      events).1 ≠ [])
    (ht : env.typingOnOk = true) :
    countAct (.senderAction uid .typing_off)
      (processSessionInternal sessionId events env b).1 = 1 ∧
    countAct .keepAliveStart (processSessionInternal sessionId events env b).1 = 1 ∧
    countAct .keepAliveCancel (processSessionInternal sessionId events env b).1 = 1 := by
  rw [processSessionInternal_dispatch sessionId uid events ex env b hr hu hd]
  obtain ⟨hoff, hcancel, hstart, hdfi⟩ := dispatchPhase_counts uid
    { sent := env.typingOnOk, keepAlive := env.typingOnOk } b
  have hpre : ∀ x : Action, isCmdAction x = false → x ≠ .sessionRead →
      (∀ d ok, x ≠ .sessionWrite d ok) →
      countAct x (preActions sessionId events ex env) = 0 := by
    intro x hx h1 h2
    exact preActions_counts sessionId events ex env hx h1 h2
  have ho := hpre (.senderAction uid .typing_off) (by rfl) (by simp) (by simp)
  have hs := hpre .keepAliveStart (by rfl) (by simp) (by simp)
  have hc := hpre .keepAliveCancel (by rfl) (by simp) (by simp)
  have hts : bSent { sent := env.typingOnOk, keepAlive := env.typingOnOk } = 1 := by
    simp [bSent, ht]
  have htk : bKa { sent := env.typingOnOk, keepAlive := env.typingOnOk } = 1 := by
    simp [bKa, ht]
  rw [hts] at hoff
  rw [htk] at hcancel
  rw [ht] at hoff hcancel hstart
  refine ⟨?_, ?_, ?_⟩ <;>
    simp only [dispatchSection, ht, countAct_append, countAct_cons,
      countAct_nil] <;>
    simp [ho, hs, hc, hoff, hcancel, hstart, countAct_cons, countAct_nil]

def wEnvOk : Env :=
  { readResult := .ok none, writeOk := true, typingOnOk := true, now := 0 }

def wHello : List NEvent :=
  [NEvent.message 5
    { envelope := { senderId := "u1", recipientId := "p1", timestamp := 5,
                    mid := some "mid-1", isEcho := false },
      kind := .text "Hello" }]

def wBehFinThrow : DispatcherBehavior :=
  { calls := [HandlerCall.runFinished], failure := some "boom" }

def wBehThrow : DispatcherBehavior :=
  { calls := [], failure := some "boom" }

/-- C4 (witness): the typing-off theorem at a concrete batch and a
dispatcher behavior that invokes the run-finished handler and then throws. -/
theorem C4_typing_off_on_every_exit_witness :
    (wEnvOk.readResult = .ok none) ∧
    ((resolveParticipants wHello none).userId = some "u1") ∧
    ((filterSlashCommands "u1" (resolveParticipants wHello none).userId
      wHello).1 ≠ []) ∧
    (wEnvOk.typingOnOk = true) ∧
    (countAct (.senderAction "u1" .typing_off)
      (processSessionInternal "u1" wHello wEnvOk wBehFinThrow).1 = 1 ∧
     countAct .keepAliveStart
      (processSessionInternal "u1" wHello wEnvOk wBehFinThrow).1 = 1 ∧
     countAct .keepAliveCancel
      (processSessionInternal "u1" wHello wEnvOk wBehFinThrow).1 = 1) :=
  ⟨rfl, by decide, by decide, rfl,
    C4_typing_off_on_every_exit "u1" "u1" wHello none wEnvOk wBehFinThrow
      rfl (by decide) (by decide) rfl⟩

/-- C5: when the dispatcher throws, `processSessionInternal` re-throws a
typed `DispatchError` wrapping the cause, sends the generic apology text to
the user, and increments the dispatch-failure counter exactly once. -/
theorem C5_dispatch_failure_wrapped (sessionId uid : String)
    (events : List NEvent) (ex : Option SessionData) (env : Env)
    (b : DispatcherBehavior) (cause : String)
    (hr : env.readResult = .ok ex)
    (hu : (resolveParticipants events ex).userId = some uid)
    (hd : (filterSlashCommands sessionId (resolveParticipants events ex).userId
      events).1 ≠ [])
    (hb : b.failure = some cause) :
    (processSessionInternal sessionId events env b).2 =
      .error (.dispatchError cause) ∧
    countAct .dispatchFailureInc (processSessionInternal sessionId events env b).1 = 1 ∧
    Action.textSend uid ERROR_TEXT .error ∈
      (processSessionInternal sessionId events env b).1 := by
  rw [processSessionInternal_dispatch sessionId uid events ex env b hr hu hd]
  obtain ⟨herr, hmem⟩ := dispatchPhase_failure uid
    { sent := env.typingOnOk, keepAlive := env.typingOnOk } b cause hb
  obtain ⟨_, _, _, hp4⟩ := dispatchPhase_counts uid
    { sent := env.typingOnOk, keepAlive := env.typingOnOk } b
  refine ⟨?_, ?_, ?_⟩
  · simpa [dispatchSection] using herr
  · have hpre := @preActions_counts sessionId events ex env
      Action.dispatchFailureInc (by rfl) (by simp) (by simp)
    rw [hb] at hp4
    cases henv : env.typingOnOk <;> rw [henv] at hp4 <;>
      simp [dispatchSection, henv, countAct_append, countAct_cons,
        countAct_nil, hpre, hp4]
  · refine List.mem_append_right _ ?_
    refine List.mem_append_right _ ?_
    exact hmem

/-- C5 (witness): the dispatch-failure theorem at a concrete batch and a
throwing dispatcher. -/
theorem C5_dispatch_failure_wrapped_witness :
    (wEnvOk.readResult = .ok none) ∧
    ((resolveParticipants wHello none).userId = some "u1") ∧
    ((filterSlashCommands "u1" (resolveParticipants wHello none).userId
      wHello).1 ≠ []) ∧
    (wBehThrow.failure = some "boom") ∧
    ((processSessionInternal "u1" wHello wEnvOk wBehThrow).2 =
       .error (.dispatchError "boom") ∧
     countAct .dispatchFailureInc
       (processSessionInternal "u1" wHello wEnvOk wBehThrow).1 = 1 ∧
     Action.textSend "u1" ERROR_TEXT .error ∈
       (processSessionInternal "u1" wHello wEnvOk wBehThrow).1) :=
  ⟨rfl, by decide, by decide, rfl,
    C5_dispatch_failure_wrapped "u1" "u1" wHello none wEnvOk wBehThrow "boom"
      rfl (by decide) (by decide) rfl⟩

end FbAgui

namespace FbAgui

/-! ## Session-store failure behavior (C8)

`processSessionInternal` starts with `const existing = await
this.sessions.read(sessionId);` with no surrounding try/catch, so a read
rejection propagates out of the call; only the write inside
`persistSession` is wrapped and logged. -/

/-- Forget the recorded write outcome, keeping the written data. -/
def scrubWrite : Action → Action
  | .sessionWrite d _ => .sessionWrite d true
  | a => a

lemma preActions_envCongr (sessionId : String) (events : List NEvent)
    (existing : Option SessionData) (e1 e2 : Env) (hn : e1.now = e2.now) :
    (preActions sessionId events existing e1).map scrubWrite =
    (preActions sessionId events existing e2).map scrubWrite := by
  simp [preActions, scrubWrite, hn]

lemma dispatchSection_envCongr (uid : String) (e1 e2 : Env)
    (ht : e1.typingOnOk = e2.typingOnOk) (b : DispatcherBehavior) :
    dispatchSection uid e1 b = dispatchSection uid e2 b := by
  simp [dispatchSection, ht]

/-- The outcome of the best-effort session write influences nothing else:
result and trace (up to the recorded write outcome) are preserved. -/
lemma processSessionInternal_envCongr (sessionId : String)
    (events : List NEvent) (e1 e2 : Env) (b : DispatcherBehavior)
    (hr : e1.readResult = e2.readResult) (ht : e1.typingOnOk = e2.typingOnOk)
    (hn : e1.now = e2.now) :
    (processSessionInternal sessionId events e1 b).2 =
      (processSessionInternal sessionId events e2 b).2 ∧
    (processSessionInternal sessionId events e1 b).1.map scrubWrite =
      (processSessionInternal sessionId events e2 b).1.map scrubWrite := by
  constructor
  · unfold processSessionInternal
    rw [hr]
    split
    · rfl
    · split
      · rfl
      · split
        · rfl
        · rename_i uid heq
          rw [dispatchSection_envCongr uid e1 e2 ht b]
  · unfold processSessionInternal
    rw [hr]
    split
    · rfl
    · split
      · exact preActions_envCongr sessionId events _ e1 e2 hn
      · split
        · exact preActions_envCongr sessionId events _ e1 e2 hn
        · rename_i uid heq
          simp only [List.map_append]
          rw [preActions_envCongr sessionId events _ e1 e2 hn,
            dispatchSection_envCongr uid e1 e2 ht b]

/-- C8: contrary to the claim, a failure of the session-store read IS
fatal: `sessions.read` is not wrapped in try/catch, so the call aborts with
only the read attempt recorded and the batch is not processed.  The write
half of the claim does hold: the persist outcome is swallowed, so neither
the final result nor the rest of the trace depends on it. -/
theorem C8_read_fatal_write_swallowed (sessionId : String)
    (events : List NEvent) (env : Env) (b : DispatcherBehavior)
    (hread : env.readResult = .error ()) :
    processSessionInternal sessionId events env b =
      ([.sessionRead], .error .sessionReadFailed) ∧
    (∀ env2 : Env,
      (processSessionInternal sessionId events { env2 with writeOk := true } b).2 =
        (processSessionInternal sessionId events { env2 with writeOk := false } b).2 ∧
      (processSessionInternal sessionId events
          { env2 with writeOk := true } b).1.map scrubWrite =
        (processSessionInternal sessionId events
          { env2 with writeOk := false } b).1.map scrubWrite) := by
  constructor
  · simp only [processSessionInternal, hread]
  · intro env2
    exact processSessionInternal_envCongr sessionId events
      { env2 with writeOk := true } { env2 with writeOk := false } b
      rfl rfl rfl

def wEnvErr : Env :=
  { readResult := .error (), writeOk := true, typingOnOk := true, now := 0 }

/-- C8 (counterexample): at a concrete batch with a failing session read,
`processSessionInternal` aborts with a `sessionReadFailed` error and
records nothing but the read attempt — the read failure is not treated as
"no prior record" and processing does not continue. -/
theorem C8_counterexample :
    processSessionInternal "u1" wHello wEnvErr wBehThrow =
      ([Action.sessionRead], .error .sessionReadFailed) ∧
    (processSessionInternal "u1" wHello wEnvErr wBehThrow).2 ≠ .ok () := by
  decide

/-- C8 (witness): the read-failure theorem applied at a concrete
environment and batch. -/
theorem C8_read_fatal_write_swallowed_witness :
    (wEnvErr.readResult = .error ()) ∧
    processSessionInternal "u1" wHello wEnvErr wBehThrow =
      ([Action.sessionRead], .error .sessionReadFailed) ∧
    (processSessionInternal "u1" wHello
        { wEnvOk with writeOk := true } wBehThrow).2 =
      (processSessionInternal "u1" wHello
        { wEnvOk with writeOk := false } wBehThrow).2 :=
  ⟨rfl, (C8_read_fatal_write_swallowed "u1" wHello wEnvErr wBehThrow rfl).1,
    ((C8_read_fatal_write_swallowed "u1" wHello wEnvErr wBehThrow rfl).2 wEnvOk).1⟩

end FbAgui

namespace FbAgui

/-! ## Echo-only batches (C3)

`filterSlashCommands` does not look at `isEcho`, so echo message events
remain dispatchable and `processSessionInternal` enters the presence /
dispatch section; only inside `HttpAguiDispatcher.dispatch` does
`buildRunInput` come back `undefined` (echoes produce no user message) and
the dispatcher returns without issuing a run. -/

def isEchoEvent : NEvent → Bool
  | .message _ msg => msg.envelope.isEcho
  | _ => false

lemma buildRunMessages_echo (events : List NEvent)
    (hall : ∀ e ∈ events, isEchoEvent e = true) :
    buildRunMessages events = [] := by
  induction events with
  | nil => rfl
  | cons e rest ih =>
      have he := hall e (List.mem_cons_self e rest)
      have hrest : ∀ x ∈ rest, isEchoEvent x = true := fun x hx =>
        hall x (List.mem_cons_of_mem e hx)
      cases e with
      | message ts msg =>
          have hecho : msg.envelope.isEcho = true := he
          simp [buildRunMessages, buildUserMessage, hecho, ih hrest]
      | postback ts r1 r2 t p => exact Bool.noConfusion he
      | unknown ts => exact Bool.noConfusion he

/-- C3: an echo-only batch yields zero user messages, no run request and no
agent call or handler callback (the HTTP dispatcher returns immediately),
and the call ends without a dispatch failure — but, contrary to the claim,
the dispatch section is NOT skipped: the echo events stay dispatchable, so
the presence actions `mark_seen` and `typing_on` are still sent. -/
theorem C3_echo_only_no_run_but_presence (sessionId uid : String)
    (events : List NEvent) (ex : Option SessionData) (env : Env)
    (now maxErrors : Nat) (stream : List SseBlock)
    (hall : ∀ e ∈ events, isEchoEvent e = true)
    (hr : env.readResult = .ok ex)
    (hu : (resolveParticipants events ex).userId = some uid)
    (hd : (filterSlashCommands sessionId (resolveParticipants events ex).userId
      events).1 ≠ []) :
    buildRunInput events sessionId now = none ∧
    httpDispatchBehavior events sessionId now maxErrors stream =
      { calls := [], failure := none } ∧
    Action.senderAction uid .mark_seen ∈
      (processSessionInternal sessionId events env
        (httpDispatchBehavior events sessionId now maxErrors stream)).1 ∧
    Action.senderAction uid .typing_on ∈
      (processSessionInternal sessionId events env
        (httpDispatchBehavior events sessionId now maxErrors stream)).1 ∧
    (processSessionInternal sessionId events env
      (httpDispatchBehavior events sessionId now maxErrors stream)).2 = .ok () ∧
    countAct .dispatchFailureInc
      (processSessionInternal sessionId events env
        (httpDispatchBehavior events sessionId now maxErrors stream)).1 = 0 := by
  have hmsgs := buildRunMessages_echo events hall
  have hinput : buildRunInput events sessionId now = none := by
    simp [buildRunInput, hmsgs]
  have hbeh : httpDispatchBehavior events sessionId now maxErrors stream =
      { calls := [], failure := none } := by
    simp [httpDispatchBehavior, hinput]
  refine ⟨hinput, hbeh, ?_, ?_, ?_, ?_⟩ <;>
    rw [processSessionInternal_dispatch sessionId uid events ex env _ hr hu hd]
  · exact List.mem_append_right _ (by simp [dispatchSection])
  · exact List.mem_append_right _ (by simp [dispatchSection])
  · rw [hbeh]
    simpa [dispatchSection] using dispatchPhase_ok uid
      { sent := env.typingOnOk, keepAlive := env.typingOnOk }
      { calls := [], failure := none } rfl
  · rw [hbeh]
    have hpre := @preActions_counts sessionId events ex env
      Action.dispatchFailureInc (by rfl) (by simp) (by simp)
    obtain ⟨_, _, _, hp4⟩ := dispatchPhase_counts uid
      { sent := env.typingOnOk, keepAlive := env.typingOnOk }
      { calls := [], failure := none }
    cases henv : env.typingOnOk <;> rw [henv] at hp4 <;>
      simp [dispatchSection, henv, countAct_append, countAct_cons,
        countAct_nil, hpre, hp4]

def wEcho : List NEvent :=
  [NEvent.message 7
    { envelope := { senderId := "u1", recipientId := "p1", timestamp := 7,
                    mid := some "mid-e", isEcho := true },
      kind := .text "Echoed" }]

/-- C3 (counterexample): a concrete batch consisting of one echoed text
message produces zero user messages, yet the trace of
`processSessionInternal` still contains the `mark_seen` and `typing_on`
presence actions — the dispatch is not "skipped entirely". -/
theorem C3_counterexample :
    buildRunMessages wEcho = [] ∧
    Action.senderAction "u1" SenderAction.mark_seen ∈
      (processSessionInternal "u1" wEcho wEnvOk
        (httpDispatchBehavior wEcho "u1" 0 3 [])).1 ∧
    Action.senderAction "u1" SenderAction.typing_on ∈
      (processSessionInternal "u1" wEcho wEnvOk
        (httpDispatchBehavior wEcho "u1" 0 3 [])).1 := by
  decide

/-- C3 (witness): the echo-only theorem applied at the concrete
one-echo-message batch. -/
theorem C3_echo_only_no_run_but_presence_witness :
    wEcho.all isEchoEvent = true ∧
    wEnvOk.readResult = .ok none ∧
    (resolveParticipants wEcho none).userId = some "u1" ∧
    (filterSlashCommands "u1" (resolveParticipants wEcho none).userId
      wEcho).1 ≠ [] ∧
    (buildRunInput wEcho "u1" 0 = none ∧
     httpDispatchBehavior wEcho "u1" 0 3 [] = { calls := [], failure := none } ∧
     Action.senderAction "u1" .mark_seen ∈
       (processSessionInternal "u1" wEcho wEnvOk
         (httpDispatchBehavior wEcho "u1" 0 3 [])).1 ∧
     Action.senderAction "u1" .typing_on ∈
       (processSessionInternal "u1" wEcho wEnvOk
         (httpDispatchBehavior wEcho "u1" 0 3 [])).1 ∧
     (processSessionInternal "u1" wEcho wEnvOk
       (httpDispatchBehavior wEcho "u1" 0 3 [])).2 = .ok () ∧
     countAct .dispatchFailureInc
       (processSessionInternal "u1" wEcho wEnvOk
         (httpDispatchBehavior wEcho "u1" 0 3 [])).1 = 0) :=
  ⟨rfl, rfl, by decide, by decide,
    C3_echo_only_no_run_but_presence "u1" "u1" wEcho none wEnvOk 0 3 []
      (by decide) rfl (by decide) (by decide)⟩

end FbAgui

namespace FbAgui

/-! ## Outbound retry behavior (C7)

`executeWithRetry` runs `operation()` for `attempt = 1 .. attempts`,
recording the last error, breaking without a delay when the final attempt
fails, and sleeping `100 * attempt` ms after any earlier failure.  The
operation is embedded as a pure oracle from the (1-based) attempt number to
its success.  `sendTypingAction` runs it with 2 attempts (the caught
outcome becomes its boolean result); `sendTextMessage` runs each chunk of
`chunkText` with 3 attempts and breaks out of the chunk loop on the first
exhausted chunk. -/

inductive RAct where
  | attempt (n : Nat)
  | delayMs (ms : Nat)
deriving DecidableEq, Repr

/-- The `for (let attempt = 1; attempt <= attempts; ...)` loop of
`executeWithRetry`, by remaining iterations. -/
def retryGo (op : Nat → Bool) : Nat → Nat → List RAct × Bool
  | _, 0 => ([], false)
  | attempt, remaining + 1 =>
      if op attempt then ([.attempt attempt], true)
      else if remaining = 0 then ([.attempt attempt], false)
      else
        (RAct.attempt attempt :: RAct.delayMs (100 * attempt) ::
           (retryGo op (attempt + 1) remaining).1,
         (retryGo op (attempt + 1) remaining).2)

/-- `executeWithRetry`: the recorded attempts/delays and whether it
returned normally (`false` = the last error is re-thrown). -/
def executeWithRetry (op : Nat → Bool) (attempts : Nat) : List RAct × Bool :=
  retryGo op 1 attempts

/-- Spec-side expected retry trace: `count` attempts starting at number
`first`, with a `100 * attempt` ms delay between consecutive attempts and
none after the last. -/
def specRetryTrace : Nat → Nat → List RAct
  | _, 0 => []
  | first, count + 1 =>
      if count = 0 then [RAct.attempt first]
      else
        RAct.attempt first :: RAct.delayMs (100 * first) ::
          specRetryTrace (first + 1) count

lemma retryGo_succ_eq (op : Nat → Bool) (attempt r : Nat) :
    retryGo op attempt (r + 1) =
      if op attempt then ([.attempt attempt], true)
      else if r = 0 then ([.attempt attempt], false)
      else
        (RAct.attempt attempt :: RAct.delayMs (100 * attempt) ::
           (retryGo op (attempt + 1) r).1,
         (retryGo op (attempt + 1) r).2) := by
  simp [retryGo]

/-- `sendTypingAction`: no recipient means no attempt; otherwise the
2-attempt retry wrapper, with the thrown error swallowed into `false`. -/
def sendTypingAction (recipientId : Option String) (op : Nat → Bool) :
    List RAct × Bool :=
  match recipientId with
  | none => ([], false)
  | some _ => executeWithRetry op 2

/-- The chunk loop of `sendTextMessage`: each chunk gets a 3-attempt retry,
and an exhausted chunk breaks the loop. -/
def sendChunksGo (ops : Nat → Nat → Bool) (idx : Nat) :
    List (List Char) → List (List Char × (List RAct × Bool))
  | [] => []
  | c :: rest =>
      if (executeWithRetry (ops idx) 3).2 then
        (c, executeWithRetry (ops idx) 3) :: sendChunksGo ops (idx + 1) rest
      else [(c, executeWithRetry (ops idx) 3)]

/-- `sendTextMessage`: skipped without a recipient or with whitespace-only
text; otherwise the chunk loop over `chunkText text maxLen`. -/
def sendTextMessage (recipientId : Option String) (text : String)
    (maxLen : Nat) (ops : Nat → Nat → Bool) :
    List (List Char × (List RAct × Bool)) :=
  match recipientId with
  | none => []
  | some _ =>
      if strTrim text = "" then []
      else sendChunksGo ops 0 (chunkText text.data maxLen)

/-- Spec-side expected chunk record for an all-successful prefix: each
chunk paired with its own 3-attempt retry outcome, indices counting up. -/
def specChunksSent (ops : Nat → Nat → Bool) (idx : Nat) :
    List (List Char) → List (List Char × (List RAct × Bool))
  | [] => []
  | c :: rest =>
      (c, executeWithRetry (ops idx) 3) :: specChunksSent ops (idx + 1) rest

lemma retryGo_allFail (op : Nat → Bool) :
    ∀ (remaining attempt : Nat),
      (∀ j, attempt ≤ j → j < attempt + remaining → op j = false) →
      retryGo op attempt remaining = (specRetryTrace attempt remaining, false) := by
  intro remaining
  induction remaining with
  | zero => intro attempt _; rfl
  | succ r ih =>
      intro attempt h
      have hop : op attempt = false := h attempt (Nat.le_refl _) (by omega)
      rw [retryGo_succ_eq]
      cases r with
      | zero => simp [specRetryTrace, hop]
      | succ r2 =>
          have hrec := ih (attempt + 1) fun j hj1 hj2 => h j (by omega) (by omega)
          simp [specRetryTrace, hop, hrec]

lemma retryGo_firstSuccess (op : Nat → Bool) :
    ∀ (d attempt remaining : Nat), d < remaining →
      (∀ j, attempt ≤ j → j < attempt + d → op j = false) →
      op (attempt + d) = true →
      retryGo op attempt remaining = (specRetryTrace attempt (d + 1), true) := by
  intro d
  induction d with
  | zero =>
      intro attempt remaining hlt hfail hsucc
      cases remaining with
      | zero => exact absurd hlt (by omega)
      | succ r =>
          have hop : op attempt = true := by simpa using hsucc
          rw [retryGo_succ_eq]
          simp [specRetryTrace, hop]
  | succ d2 ih =>
      intro attempt remaining hlt hfail hsucc
      cases remaining with
      | zero => exact absurd hlt (by omega)
      | succ r =>
          have hop : op attempt = false :=
            hfail attempt (Nat.le_refl _) (by omega)
          have hr0 : r ≠ 0 := by omega
          have hsucc2 : op (attempt + 1 + d2) = true := by
            rwa [show attempt + 1 + d2 = attempt + (d2 + 1) from by omega]
          have hrec := ih (attempt + 1) r (by omega)
            (fun j hj1 hj2 => hfail j (by omega) (by omega)) hsucc2
          rw [retryGo_succ_eq]
          simp [specRetryTrace, hop, hr0, hrec]

lemma sendChunksGo_abort (ops : Nat → Nat → Bool) :
    ∀ (pre : List (List Char)) (c : List Char) (post : List (List Char))
      (idx : Nat),
      (∀ i, i < pre.length → (executeWithRetry (ops (idx + i)) 3).2 = true) →
      (executeWithRetry (ops (idx + pre.length)) 3).2 = false →
      sendChunksGo ops idx (pre ++ c :: post) =
        specChunksSent ops idx pre ++
          [(c, executeWithRetry (ops (idx + pre.length)) 3)] := by
  intro pre
  induction pre with
  | nil =>
      intro c post idx _ hfail
      have hfail0 : (executeWithRetry (ops idx) 3).2 = false := by
        simpa using hfail
      simp [sendChunksGo, specChunksSent, hfail0]
  | cons a rest ih =>
      intro c post idx hok hfail
      have h0 : (executeWithRetry (ops idx) 3).2 = true := by
        have := hok 0 (by simp)
        simpa using this
      have hok2 : ∀ i, i < rest.length →
          (executeWithRetry (ops (idx + 1 + i)) 3).2 = true := by
        intro i hi
        have := hok (i + 1) (by simpa using Nat.succ_lt_succ hi)
        rwa [show idx + (i + 1) = idx + 1 + i from by omega] at this
      have hfail2 : (executeWithRetry (ops (idx + 1 + rest.length)) 3).2 = false := by
        have hlen : idx + (a :: rest).length = idx + 1 + rest.length := by
          rw [List.length_cons]; omega
        rwa [hlen] at hfail
      have hrec := ih c post (idx + 1) hok2 hfail2
      have hidx : idx + 1 + rest.length = idx + (rest.length + 1) := by omega
      rw [hidx] at hrec
      simp [sendChunksGo, h0, hrec, specChunksSent]

/-- C7: `executeWithRetry` performs up to `n` attempts with a
`100 * attempt` ms delay between consecutive attempts (none after the
last): if every attempt fails it records all `n` attempts and re-throws
(`false`), and if attempt `k` is the first to succeed it stops right there
with attempts `1..k`.  `sendTypingAction` uses 2 attempts and
`sendTextMessage` 3 per chunk, and when a chunk exhausts its retries the
loop records the earlier (successful) chunks and the failed one and never
reaches the chunks after it. -/
theorem C7_outbound_send_retry :
    (∀ (op : Nat → Bool) (n : Nat),
      (∀ j, 1 ≤ j → j ≤ n → op j = false) →
      executeWithRetry op n = (specRetryTrace 1 n, false)) ∧
    (∀ (op : Nat → Bool) (n k : Nat), 1 ≤ k → k ≤ n →
      (∀ j, 1 ≤ j → j < k → op j = false) → op k = true →
      executeWithRetry op n = (specRetryTrace 1 k, true)) ∧
    (∀ (u : String) (op : Nat → Bool),
      sendTypingAction (some u) op = executeWithRetry op 2) ∧
    (∀ (u text : String) (maxLen : Nat) (ops : Nat → Nat → Bool),
      strTrim text ≠ "" →
      sendTextMessage (some u) text maxLen ops =
        sendChunksGo ops 0 (chunkText text.data maxLen)) ∧
    (∀ (ops : Nat → Nat → Bool) (pre : List (List Char)) (c : List Char)
        (post : List (List Char)),
      (∀ i, i < pre.length → (executeWithRetry (ops i) 3).2 = true) →
      (executeWithRetry (ops pre.length) 3).2 = false →
      sendChunksGo ops 0 (pre ++ c :: post) =
        specChunksSent ops 0 pre ++
          [(c, executeWithRetry (ops pre.length) 3)]) := by
  refine ⟨?_, ?_, ?_, ?_, ?_⟩
  · intro op n hall
    exact retryGo_allFail op n 1 fun j hj1 hj2 => hall j hj1 (by omega)
  · intro op n k hk1 hk2 hfail hsucc
    have hs : op (1 + (k - 1)) = true := by
      rwa [show 1 + (k - 1) = k from by omega]
    have := retryGo_firstSuccess op (k - 1) 1 n (by omega)
      (fun j hj1 hj2 => hfail j hj1 (by omega)) hs
    rwa [show k - 1 + 1 = k from by omega] at this
  · intro u op; rfl
  · intro u text maxLen ops htrim
    simp [sendTextMessage, htrim]
  · intro ops pre c post hok hfail
    have hok0 : ∀ i, i < pre.length →
        (executeWithRetry (ops (0 + i)) 3).2 = true := by
      intro i hi
      simpa using hok i hi
    have hfail0 : (executeWithRetry (ops (0 + pre.length)) 3).2 = false := by
      simpa using hfail
    have := sendChunksGo_abort ops pre c post 0 hok0 hfail0
    simpa using this

def wOpFail : Nat → Bool := fun _ => false

def wOpSecond : Nat → Bool := fun k => decide (k = 2)

def wOps : Nat → Nat → Bool := fun i _ => decide (i = 0)

/-- C7 (witness): the retry theorem at concrete oracles — an always-failing
operation with 2 attempts, an operation first succeeding at attempt 2 of 3,
the presence sender, a two-chunk text send whose second chunk exhausts its
3 attempts. -/
theorem C7_outbound_send_retry_witness :
    executeWithRetry wOpFail 2 = (specRetryTrace 1 2, false) ∧
    executeWithRetry wOpSecond 3 = (specRetryTrace 1 2, true) ∧
    sendTypingAction (some "u1") wOpFail = executeWithRetry wOpFail 2 ∧
    sendTextMessage (some "u1") "Hello world" 2000 wOps =
      sendChunksGo wOps 0 (chunkText "Hello world".data 2000) ∧
    sendChunksGo wOps 0 ([['a']] ++ ['b'] :: []) =
      specChunksSent wOps 0 [['a']] ++
        [(['b'], executeWithRetry (wOps 1) 3)] :=
  ⟨C7_outbound_send_retry.1 wOpFail 2 (by decide),
   C7_outbound_send_retry.2.1 wOpSecond 3 2 (by decide) (by decide)
     (by decide) (by decide),
   C7_outbound_send_retry.2.2.1 "u1" wOpFail,
   C7_outbound_send_retry.2.2.2.1 "u1" "Hello world" 2000 wOps (by decide),
   by
     have h := C7_outbound_send_retry.2.2.2.2 wOps [['a']] ['b'] []
       (by decide) (by decide)
     simpa using h⟩

end FbAgui
